import Mathlib

/-!
# Verification of the `reth` session manager (`crates/net/network/src/session/mod.rs`)

Shallow embedding of the peer-session lifecycle manager: admission control,
handshake pipelines, the prioritized `poll` loop, the graceful-disconnection
limiter and the extra sub-protocol negotiation of `authenticate_stream`.

Pure data (socket addresses, message payloads, client strings, connection
handles) is represented by opaque tokens (`Nat`/`String`); the async channels
are represented by explicit FIFO queues inside the manager state; the spawned
handshake tasks are represented by an explicit task list in a `World` record,
with a nondeterministic step relation delivering their terminal events.
-/

namespace RethSession

/-- The remote's public cryptographic identity (`PeerId`), opaque token. -/
abbrev PeerId := Nat

/-- Socket address token (`SocketAddr`). -/
abbrev SocketAddr := Nat

/-- `Direction`: either an incoming connection or an outgoing dial to a known peer. -/
inductive Direction where
  | incoming : Direction
  | outgoing (peer : PeerId) : Direction
deriving DecidableEq, Repr

/-- `Direction::is_outgoing`. -/
def Direction.isOutgoing : Direction → Bool
  | .incoming => false
  | .outgoing _ => true

/-- Whether a direction is the incoming one; used to classify per-direction counters. -/
def Direction.isIncoming : Direction → Bool
  | .incoming => true
  | .outgoing _ => false

/-- A capability: a (name, version) pair identifying a sub-protocol. -/
structure Capability where
  name : String
  version : Nat
deriving DecidableEq, Repr

/-- `OnNotSupported`: a sub-protocol handler's policy when the remote does not
support its capability. -/
inductive OnNotSupported where
  | keepAlive : OnNotSupported
  | disconnect : OnNotSupported
deriving DecidableEq, Repr

/-- An extra `RLPx` sub-protocol handler: its capability descriptor
(`handler.protocol().cap`) and the outcome of its `on_unsupported_by_peer`
policy method. Modelled from the spec: the handler trait lives outside the
embedded sources; §4.2/§9 describe it as "a capability descriptor and a policy
method (on unsupported by peer)". -/
structure ProtocolHandler where
  cap : Capability
  onUnsupportedByPeer : OnNotSupported
deriving DecidableEq, Repr

/-- `HelloMessageWithProtocols`: the locally advertised capability list. -/
structure HelloMessage where
  protocols : List Capability
deriving DecidableEq, Repr

/-- Abstract cause of an `EthStreamError` (p2p hello failure, no shared eth
version, status-handshake failure); the manager only forwards it. -/
inductive EthStreamErrorKind where
  | helloFailed : EthStreamErrorKind
  | noSharedEthVersion : EthStreamErrorKind
  | statusFailed : EthStreamErrorKind
deriving DecidableEq, Repr

/-- `PendingSessionHandshakeError`. -/
inductive PendingSessionHandshakeError where
  | eth (e : EthStreamErrorKind) : PendingSessionHandshakeError
  | ecies : PendingSessionHandshakeError
  | timeout : PendingSessionHandshakeError
  | unsupportedExtraCapability : PendingSessionHandshakeError
deriving DecidableEq, Repr

/-- `ExceedsSessionLimit`: the error thrown when the max configured limit has
been reached; carries the limit. -/
structure ExceedsSessionLimit where
  limit : Nat
deriving DecidableEq, Repr

/-- `DisconnectReason` (only the variants the manager produces matter here). -/
inductive DisconnectReason where
  | alreadyConnected : DisconnectReason
  | tooManyPeers : DisconnectReason
  | other : DisconnectReason
deriving DecidableEq, Repr

/-- Modelled from the spec: `HelloMessageWithProtocols::try_add_protocol` is
outside the embedded sources. Per §4.2 "any caller-registered optional
sub-protocol handlers are added to the locally advertised capability list";
the spec states no failure condition, so adding always succeeds (the fallible
signature is kept for the `retain(.. is_ok())` call site). -/
def HelloMessage.tryAddProtocol (hello : HelloMessage) (cap : Capability) :
    Except Unit HelloMessage :=
  .ok { protocols := hello.protocols ++ [cap] }

/-- `extra_handlers.retain(|handler| hello.try_add_protocol(handler.protocol()).is_ok())`:
left fold over the handlers, threading the hello message and keeping the
handlers whose protocol was added. -/
def addExtraProtocols (hello : HelloMessage) (handlers : List ProtocolHandler) :
    HelloMessage × List ProtocolHandler :=
  handlers.foldl
    (fun acc h =>
      match acc.1.tryAddProtocol h.cap with
      | .ok hello2 => (hello2, acc.2 ++ [h])
      | .error _ => (acc.1, acc.2))
    (hello, [])

/-- Per-direction session limits (`SessionLimits`). Modelled from the spec:
`counter.rs` is outside the embedded sources; §3 describes one configured
maximum per direction bounding `pending_count + active_count`. `none` means
unlimited. -/
structure SessionLimits where
  maxInbound : Option Nat
  maxOutbound : Option Nat
deriving DecidableEq, Repr

/-- `SessionCounter`: pending/active counts per direction against the limits.
Modelled from the spec: `counter.rs` is outside the embedded sources; §3 gives
"four integers (pending-incoming, pending-outgoing, active-incoming,
active-outgoing) bounded by configured limits". -/
structure SessionCounter where
  limits : SessionLimits
  pendingInbound : Nat
  pendingOutbound : Nat
  activeInbound : Nat
  activeOutbound : Nat
deriving DecidableEq, Repr

/-- A fresh counter with all counts zero. -/
def SessionCounter.new (limits : SessionLimits) : SessionCounter :=
  { limits, pendingInbound := 0, pendingOutbound := 0,
    activeInbound := 0, activeOutbound := 0 }

/-- Modelled from the spec: the admission check "must grant a permit for
(Direction, Pending) — a pure capacity check against configured maxima" (§4.1),
maintaining the §3 invariant that `pending + active` per direction never
exceeds the configured maximum. -/
def SessionCounter.ensurePendingInbound (c : SessionCounter) :
    Except ExceedsSessionLimit Unit :=
  match c.limits.maxInbound with
  | none => .ok ()
  | some lim => if c.pendingInbound + c.activeInbound < lim then .ok () else .error ⟨lim⟩

/-- Modelled from the spec: outbound twin of `ensurePendingInbound`. -/
def SessionCounter.ensurePendingOutbound (c : SessionCounter) :
    Except ExceedsSessionLimit Unit :=
  match c.limits.maxOutbound with
  | none => .ok ()
  | some lim => if c.pendingOutbound + c.activeOutbound < lim then .ok () else .error ⟨lim⟩

/-- Increment the pending-inbound count. -/
def SessionCounter.incPendingInbound (c : SessionCounter) : SessionCounter :=
  { c with pendingInbound := c.pendingInbound + 1 }

/-- Increment the pending-outbound count. -/
def SessionCounter.incPendingOutbound (c : SessionCounter) : SessionCounter :=
  { c with pendingOutbound := c.pendingOutbound + 1 }

/-- Increment the active count for a direction. -/
def SessionCounter.incActive (c : SessionCounter) : Direction → SessionCounter
  | .incoming => { c with activeInbound := c.activeInbound + 1 }
  | .outgoing _ => { c with activeOutbound := c.activeOutbound + 1 }

/-- Decrement the pending count for a direction. -/
def SessionCounter.decPending (c : SessionCounter) : Direction → SessionCounter
  | .incoming => { c with pendingInbound := c.pendingInbound - 1 }
  | .outgoing _ => { c with pendingOutbound := c.pendingOutbound - 1 }

/-- Decrement the active count for a direction. -/
def SessionCounter.decActive (c : SessionCounter) : Direction → SessionCounter
  | .incoming => { c with activeInbound := c.activeInbound - 1 }
  | .outgoing _ => { c with activeOutbound := c.activeOutbound - 1 }

/-- `PendingSessionHandle`: the cancel signal (present until consumed) and the
direction of the pending session. -/
structure PendingSessionHandle where
  disconnectTx : Bool
  direction : Direction
deriving DecidableEq, Repr

/-- `SessionCommand`: commands accepted into an active session's channel. -/
inductive SessionCommand where
  | message (payload : Nat) : SessionCommand
  | disconnect (reason : Option DisconnectReason) : SessionCommand
deriving DecidableEq, Repr

/-- `ActiveSessionHandle`: the manager-side record of an established session.
The bounded command channel is represented by its occupancy and a closed flag. -/
structure ActiveSessionHandle where
  direction : Direction
  sessionId : Nat
  remoteId : PeerId
  capabilities : List Capability
  remoteAddr : SocketAddr
  commandsQueued : Nat
  commandsClosed : Bool
deriving DecidableEq, Repr

/-- `PendingSessionEvent`: terminal events produced by a handshake pipeline. -/
inductive PendingSessionEvent where
  | established (sessionId : Nat) (remoteAddr : SocketAddr) (peerId : PeerId)
      (capabilities : List Capability) (direction : Direction) : PendingSessionEvent
  | disconnected (remoteAddr : SocketAddr) (sessionId : Nat) (direction : Direction)
      (error : Option PendingSessionHandshakeError) : PendingSessionEvent
  | outgoingConnectionError (remoteAddr : SocketAddr) (sessionId : Nat)
      (peerId : PeerId) : PendingSessionEvent
  | eciesAuthError (remoteAddr : SocketAddr) (sessionId : Nat)
      (direction : Direction) : PendingSessionEvent
deriving DecidableEq, Repr

/-- The session id a pending-session event refers to. -/
def PendingSessionEvent.sessionId : PendingSessionEvent → Nat
  | .established sid _ _ _ _ => sid
  | .disconnected _ sid _ _ => sid
  | .outgoingConnectionError _ sid _ => sid
  | .eciesAuthError _ sid _ => sid

/-- The direction a pending-session event refers to. -/
def PendingSessionEvent.direction : PendingSessionEvent → Direction
  | .established _ _ _ _ d => d
  | .disconnected _ _ d _ => d
  | .outgoingConnectionError _ _ peer => .outgoing peer
  | .eciesAuthError _ _ d => d

/-- `ActiveSessionMessage`: events produced by established sessions. -/
inductive ActiveSessionMessage where
  | disconnected (peerId : PeerId) (remoteAddr : SocketAddr) : ActiveSessionMessage
  | closedOnConnectionError (peerId : PeerId) (remoteAddr : SocketAddr)
      (error : EthStreamErrorKind) : ActiveSessionMessage
  | validMessage (peerId : PeerId) (message : Nat) : ActiveSessionMessage
  | badMessage (peerId : PeerId) : ActiveSessionMessage
  | protocolBreach (peerId : PeerId) : ActiveSessionMessage
deriving DecidableEq, Repr

/-- `SessionEvent`: events surfaced by the `SessionManager` to its caller. -/
inductive SessionEvent where
  | sessionEstablished (peerId : PeerId) (remoteAddr : SocketAddr)
      (capabilities : List Capability) (direction : Direction) : SessionEvent
  | alreadyConnected (peerId : PeerId) (remoteAddr : SocketAddr)
      (direction : Direction) : SessionEvent
  | validMessage (peerId : PeerId) (message : Nat) : SessionEvent
  | badMessage (peerId : PeerId) : SessionEvent
  | protocolBreach (peerId : PeerId) : SessionEvent
  | incomingPendingSessionClosed (remoteAddr : SocketAddr)
      (error : Option PendingSessionHandshakeError) : SessionEvent
  | outgoingPendingSessionClosed (remoteAddr : SocketAddr) (peerId : PeerId)
      (error : Option PendingSessionHandshakeError) : SessionEvent
  | outgoingConnectionError (remoteAddr : SocketAddr) (peerId : PeerId) : SessionEvent
  | sessionClosedOnConnectionError (peerId : PeerId) (remoteAddr : SocketAddr)
      (error : EthStreamErrorKind) : SessionEvent
  | disconnected (peerId : PeerId) (remoteAddr : SocketAddr) : SessionEvent
deriving DecidableEq, Repr

/-- Whether a surfaced event is one of the five produced from the
active-session channel branch of `poll`. -/
def SessionEvent.fromActiveChannel : SessionEvent → Bool
  | .disconnected _ _ => true
  | .sessionClosedOnConnectionError _ _ _ => true
  | .validMessage _ _ => true
  | .badMessage _ => true
  | .protocolBreach _ => true
  | _ => false

/-- Tasks spawned by `poll` (the `already connected` courteous disconnect of a
duplicate connection, and the steady-state `ActiveSession` pump). -/
inductive SpawnedTask where
  | disconnectConn (reason : DisconnectReason) : SpawnedTask
  | sessionPump (peer : PeerId) : SpawnedTask
deriving DecidableEq, Repr

/-- A spawned handshake pipeline that has not yet delivered its terminal event:
its session id, direction and remote address. -/
structure PendingTask where
  sid : Nat
  direction : Direction
  addr : SocketAddr
deriving DecidableEq, Repr

/-- `SessionManager` state: the id source, the admission counter, the two
session tables, the receiver halves of the two event channels (as FIFO
queues), the graceful-disconnections `Arc` strong count and the metrics the
claims mention. -/
structure SessionManager where
  nextIdCtr : Nat
  counter : SessionCounter
  sessionCommandBuffer : Nat
  pendingSessions : List (Nat × PendingSessionHandle)
  activeSessions : List (PeerId × ActiveSessionHandle)
  pendingRx : List PendingSessionEvent
  activeRx : List ActiveSessionMessage
  disconnectionsCounter : Nat
  droppedMessages : Nat
  dialSuccesses : Nat
deriving DecidableEq, Repr

/-- `SessionManager::new`: empty tables, zeroed counter, the `Arc` of the
disconnections counter held once by the manager itself. -/
def SessionManager.new (limits : SessionLimits) (sessionCommandBuffer : Nat) :
    SessionManager :=
  { nextIdCtr := 0, counter := SessionCounter.new limits, sessionCommandBuffer,
    pendingSessions := [], activeSessions := [], pendingRx := [], activeRx := [],
    disconnectionsCounter := 1, droppedMessages := 0, dialSuccesses := 0 }

/-- Key membership in an association list (`HashMap::contains_key`). -/
def containsKey (k : Nat) (l : List (Nat × α)) : Bool :=
  l.any (fun p => p.1 == k)

/-- Key lookup in an association list (`HashMap::get`). -/
def getKey (k : Nat) (l : List (Nat × α)) : Option α :=
  (l.find? (fun p => p.1 == k)).map (fun p => p.2)

/-- `SessionManager::on_incoming`: check inbound admission capacity, allocate
the next `SessionId`, spawn the incoming handshake pipeline, record the
`PendingSessionHandle` and increment the pending-inbound counter. Returns the
session id (or `ExceedsSessionLimit`), the new manager state, and the spawned
pipeline tasks. -/
def SessionManager.onIncoming (m : SessionManager) (remoteAddr : SocketAddr) :
    Except ExceedsSessionLimit Nat × SessionManager × List PendingTask :=
  match m.counter.ensurePendingInbound with
  | .error e => (.error e, m, [])
  | .ok _ =>
    let sessionId := m.nextIdCtr
    let task : PendingTask := { sid := sessionId, direction := .incoming, addr := remoteAddr }
    let handle : PendingSessionHandle := { disconnectTx := true, direction := .incoming }
    (.ok sessionId,
     { m with
       nextIdCtr := m.nextIdCtr + 1,
       pendingSessions := (sessionId, handle) :: m.pendingSessions,
       counter := m.counter.incPendingInbound },
     [task])

/-- `SessionManager::dial_outbound`: if the outbound pending capacity check
succeeds, allocate a `SessionId`, spawn the outbound handshake pipeline, record
the handle and increment the pending-outbound counter; otherwise do nothing
(the error is dropped). -/
def SessionManager.dialOutbound (m : SessionManager) (remoteAddr : SocketAddr)
    (remotePeerId : PeerId) : SessionManager × List PendingTask :=
  if (m.counter.ensurePendingOutbound).isOk then
    let sessionId := m.nextIdCtr
    let task : PendingTask :=
      { sid := sessionId, direction := .outgoing remotePeerId, addr := remoteAddr }
    let handle : PendingSessionHandle :=
      { disconnectTx := true, direction := .outgoing remotePeerId }
    ({ m with
       nextIdCtr := m.nextIdCtr + 1,
       pendingSessions := (sessionId, handle) :: m.pendingSessions,
       counter := m.counter.incPendingOutbound },
     [task])
  else (m, [])

/-- `SessionManager::remove_pending_session`: remove the handle if it exists
and decrement the pending counter for its direction. -/
def SessionManager.removePendingSession (m : SessionManager) (sid : Nat) :
    SessionManager :=
  match m.pendingSessions.find? (fun p => p.1 == sid) with
  | none => m
  | some entry =>
    { m with
      pendingSessions := m.pendingSessions.eraseP (fun p => p.1 == sid),
      counter := m.counter.decPending entry.2.direction }

/-- `SessionManager::remove_active_session`: remove the handle if it exists and
decrement the active counter for its direction. -/
def SessionManager.removeActiveSession (m : SessionManager) (peer : PeerId) :
    SessionManager :=
  match m.activeSessions.find? (fun p => p.1 == peer) with
  | none => m
  | some entry =>
    { m with
      activeSessions := m.activeSessions.eraseP (fun p => p.1 == peer),
      counter := m.counter.decActive entry.2.direction }

/-- `SessionManager::send_message`: look up the peer's active session and
`try_send` the message on its bounded command channel. On a `Full` buffer the
message is dropped and the dropped-messages metric incremented; on a `Closed`
channel it is dropped silently; when the peer has no active session nothing
happens. Returns the command the session received, if any. Channel semantics
modelled from the spec (§4.4): "bounded channel with non-blocking try-send;
under a full buffer `SendMessage` is dropped and an observability counter is
incremented". -/
def SessionManager.sendMessage (m : SessionManager) (peer : PeerId) (payload : Nat) :
    SessionManager × Option SessionCommand :=
  match m.activeSessions.find? (fun p => p.1 == peer) with
  | none => (m, none)
  | some entry =>
    if entry.2.commandsClosed then
      (m, none)
    else if entry.2.commandsQueued < m.sessionCommandBuffer then
      ({ m with
         activeSessions := m.activeSessions.map (fun p =>
           if p.1 == peer then
             (p.1, { p.2 with commandsQueued := p.2.commandsQueued + 1 })
           else p) },
       some (.message payload))
    else
      ({ m with droppedMessages := m.droppedMessages + 1 }, none)

/-- `DisconnectionsCounter::MAX_CONCURRENT_GRACEFUL_DISCONNECTIONS`. -/
def maxConcurrentGracefulDisconnections : Nat := 15

/-- `DisconnectionsCounter::has_capacity`: the `Arc` strong count (the
manager's own handle plus one clone per in-flight task) is at most the
constant. -/
def hasCapacity (strongCount : Nat) : Bool :=
  strongCount ≤ maxConcurrentGracefulDisconnections

/-- `SessionManager::try_disconnect_incoming_connection` on the disconnections
counter: if there is no capacity, return without spawning (the connection is
dropped); otherwise clone the shared handle (incrementing the strong count)
and spawn the graceful-disconnect task. Returns whether a task was spawned. -/
def tryDisconnectIncomingConnection (strongCount : Nat) : Nat × Bool :=
  if !hasCapacity strongCount then (strongCount, false)
  else (strongCount + 1, true)

/-- `SessionManager::poll`: drain the active-session channel first; only when
it has no ready event examine the pending-session channel. Returns `none` for
`Poll::Pending`, otherwise the surfaced `SessionEvent`, the new manager state
and the tasks spawned during this call. -/
def SessionManager.poll (m : SessionManager) :
    Option (SessionEvent × SessionManager × List SpawnedTask) :=
  match m.activeRx with
  | msg :: arest =>
    let m := { m with activeRx := arest }
    match msg with
    | .disconnected peer addr =>
      some (.disconnected peer addr, m.removeActiveSession peer, [])
    | .closedOnConnectionError peer addr err =>
      some (.sessionClosedOnConnectionError peer addr err, m.removeActiveSession peer, [])
    | .validMessage peer payload =>
      some (.validMessage peer payload, m, [])
    | .badMessage peer =>
      some (.badMessage peer, m, [])
    | .protocolBreach peer =>
      some (.protocolBreach peer, m, [])
  | [] =>
    match m.pendingRx with
    | [] => none
    | ev :: prest =>
      let m := { m with pendingRx := prest }
      match ev with
      | .established sid addr peer caps dir =>
        let m := m.removePendingSession sid
        if containsKey peer m.activeSessions then
          some (.alreadyConnected peer addr dir, m,
                [.disconnectConn .alreadyConnected])
        else
          let handle : ActiveSessionHandle :=
            { direction := dir, sessionId := sid, remoteId := peer,
              capabilities := caps, remoteAddr := addr,
              commandsQueued := 0, commandsClosed := false }
          let m :=
            { m with
              activeSessions := (peer, handle) :: m.activeSessions,
              counter := m.counter.incActive dir,
              dialSuccesses :=
                if dir.isOutgoing then m.dialSuccesses + 1 else m.dialSuccesses }
          some (.sessionEstablished peer addr caps dir, m, [.sessionPump peer])
      | .disconnected addr sid dir err =>
        let m := m.removePendingSession sid
        match dir with
        | .incoming => some (.incomingPendingSessionClosed addr err, m, [])
        | .outgoing peer => some (.outgoingPendingSessionClosed addr peer err, m, [])
      | .outgoingConnectionError addr sid peer =>
        let m := m.removePendingSession sid
        some (.outgoingConnectionError addr peer, m, [])
      | .eciesAuthError addr sid dir =>
        let m := m.removePendingSession sid
        match dir with
        | .incoming =>
          some (.incomingPendingSessionClosed addr (some .ecies), m, [])
        | .outgoing peer =>
          some (.outgoingPendingSessionClosed addr peer (some .ecies), m, [])

/-! ## The handshake pipeline (`authenticate_stream`, `authenticate`,
`start_pending_outbound_session`, `pending_session_with_timeout`)

The external async collaborators (ECIES setup, p2p hello exchange, eth-version
selection, status handshake, multiplexed satellite stream) are abstracted into
an environment record giving each operation's outcome; the pipeline functions
are then pure functions of that environment. -/

/-- The remote's hello message as seen after the p2p handshake. -/
structure TheirHello where
  id : PeerId
  capabilities : List Capability
deriving DecidableEq, Repr

/-- The state of the authenticated `P2PStream`: the shared (negotiated)
capabilities and the remote's hello. -/
structure P2PHandshakeSuccess where
  sharedCaps : List Capability
  theirHello : TheirHello
deriving DecidableEq, Repr

/-- Outcomes of the external async operations awaited by `authenticate_stream`. -/
structure HandshakeEnv where
  p2pResult : Except EthStreamErrorKind P2PHandshakeSuccess
  ethVersionResult : Except EthStreamErrorKind Nat
  statusResult : Except EthStreamErrorKind Unit
  satelliteResult : Except EthStreamErrorKind Unit
deriving Repr

/-- `SharedCapabilities::ensure_matching_capability` as a predicate. Modelled
from the spec: the shared-capabilities helper is outside the embedded sources;
§4.2 step 3 reads "if the remote's advertised capabilities do not include a
matching entry". Succeeds iff the capability is in the shared set. -/
def capSupported (shared : List Capability) (c : Capability) : Bool :=
  shared.contains c

/-- The `while let Some(pos) = extra_handlers.iter().position(unsupported)`
loop of `authenticate_stream`: repeatedly find the first handler whose
capability the shared capabilities do not include, remove it, and consult its
policy; `Disconnect` terminates the handshake with
`UnsupportedExtraCapability`, otherwise the loop continues on the remaining
handlers. -/
def runExtraCapCheck (shared : List Capability) (handlers : List ProtocolHandler) :
    Except PendingSessionHandshakeError (List ProtocolHandler) :=
  let pos := handlers.findIdx (fun h => !(capSupported shared h.cap))
  if hlt : pos < handlers.length then
    let handler := handlers.get ⟨pos, hlt⟩
    let rest := handlers.eraseIdx pos
    if handler.onUnsupportedByPeer = OnNotSupported.disconnect then
      .error .unsupportedExtraCapability
    else
      runExtraCapCheck shared rest
  else
    .ok handlers
termination_by handlers.length
decreasing_by
  simp only [List.length_eraseIdx, hlt, if_pos]
  omega

/-- `authenticate_stream`: add the extra protocols to the hello, run the p2p
handshake, run the mandatory-capability check on the surviving extra handlers,
ensure an eth version was negotiated, then either the direct status handshake
(exactly one shared capability) or the multiplexed satellite-stream path.
Every failure is a terminal `Disconnected` event; success is `Established`. -/
def authenticateStream (env : HandshakeEnv) (sessionId : Nat)
    (remoteAddr : SocketAddr) (direction : Direction) (hello : HelloMessage)
    (extraHandlers : List ProtocolHandler) : PendingSessionEvent :=
  -- Add extra protocols to the hello message
  let added := addExtraProtocols hello extraHandlers
  let extraHandlers := added.2
  match env.p2pResult with
  | .error e => .disconnected remoteAddr sessionId direction (some (.eth e))
  | .ok p2p =>
    -- if we have extra handlers, check if it must be supported by the remote
    let checkRes :=
      if extraHandlers.isEmpty then .ok extraHandlers
      else runExtraCapCheck p2p.sharedCaps extraHandlers
    match checkRes with
    | .error e => .disconnected remoteAddr sessionId direction (some e)
    | .ok _survivors =>
      -- Ensure we negotiated mandatory eth protocol
      match env.ethVersionResult with
      | .error e => .disconnected remoteAddr sessionId direction (some (.eth e))
      | .ok _ethVersion =>
        if p2p.sharedCaps.length == 1 then
          match env.statusResult with
          | .error e => .disconnected remoteAddr sessionId direction (some (.eth e))
          | .ok _ =>
            .established sessionId remoteAddr p2p.theirHello.id
              p2p.theirHello.capabilities direction
        else
          match env.satelliteResult with
          | .error e => .disconnected remoteAddr sessionId direction (some (.eth e))
          | .ok _ =>
            .established sessionId remoteAddr p2p.theirHello.id
              p2p.theirHello.capabilities direction

/-- Outcomes of `authenticate`'s awaited operations: the ECIES setup fails, the
disconnect signal wins the `select` race, or `authenticate_stream` runs to
completion in the given environment. -/
inductive AuthenticateOutcome where
  | eciesFail : AuthenticateOutcome
  | cancelled (env : HandshakeEnv) : AuthenticateOutcome
  | authCompleted (env : HandshakeEnv) : AuthenticateOutcome

/-- The terminal events `authenticate` sends on its channel, one list entry per
completed `events.send`. -/
def authenticateEvents (o : AuthenticateOutcome) (sessionId : Nat)
    (remoteAddr : SocketAddr) (direction : Direction) (hello : HelloMessage)
    (extraHandlers : List ProtocolHandler) : List PendingSessionEvent :=
  match o with
  | .eciesFail => [.eciesAuthError remoteAddr sessionId direction]
  | .cancelled _ => [.disconnected remoteAddr sessionId direction none]
  | .authCompleted env =>
    [authenticateStream env sessionId remoteAddr direction hello extraHandlers]

/-- Outcomes of `start_pending_outbound_session`: the TCP connect fails, or the
connection is handed to `authenticate`. -/
inductive OutboundOutcome where
  | connectFail : OutboundOutcome
  | connected (o : AuthenticateOutcome) : OutboundOutcome

/-- The terminal events `start_pending_outbound_session` sends. -/
def startPendingOutboundEvents (o : OutboundOutcome) (sessionId : Nat)
    (remoteAddr : SocketAddr) (remotePeerId : PeerId) (hello : HelloMessage)
    (extraHandlers : List ProtocolHandler) : List PendingSessionEvent :=
  match o with
  | .connectFail => [.outgoingConnectionError remoteAddr sessionId remotePeerId]
  | .connected ao =>
    authenticateEvents ao sessionId remoteAddr (.outgoing remotePeerId) hello extraHandlers

/-- Outcome of the `tokio::time::timeout` wrapper: either the deadline elapsed
while the inner future was still pending (the inner future is dropped before
any of its terminal sends completes), or the inner future completed in time
with outcome `o`. -/
inductive PipelineOutcome (α : Type) where
  | timedOut : PipelineOutcome α
  | completed (o : α) : PipelineOutcome α

/-- `pending_session_with_timeout`: on timeout the wrapper itself sends the
`Disconnected{Timeout}` event; otherwise the events are exactly those of the
inner future. -/
def pendingSessionWithTimeoutEvents (inner : α → List PendingSessionEvent)
    (sessionId : Nat) (remoteAddr : SocketAddr) (direction : Direction) :
    PipelineOutcome α → List PendingSessionEvent
  | .timedOut =>
    [.disconnected remoteAddr sessionId direction (some .timeout)]
  | .completed o => inner o

/-- The full incoming pipeline spawned by `on_incoming`:
`pending_session_with_timeout` around `start_pending_incoming_session`
(which is `authenticate` with `Direction::Incoming`). -/
def incomingPipelineEvents (sessionId : Nat) (remoteAddr : SocketAddr)
    (hello : HelloMessage) (extraHandlers : List ProtocolHandler)
    (o : PipelineOutcome AuthenticateOutcome) : List PendingSessionEvent :=
  pendingSessionWithTimeoutEvents
    (fun ao => authenticateEvents ao sessionId remoteAddr .incoming hello extraHandlers)
    sessionId remoteAddr .incoming o

/-- The full outgoing pipeline spawned by `dial_outbound`:
`pending_session_with_timeout` around `start_pending_outbound_session`. -/
def outgoingPipelineEvents (sessionId : Nat) (remoteAddr : SocketAddr)
    (remotePeerId : PeerId) (hello : HelloMessage)
    (extraHandlers : List ProtocolHandler)
    (o : PipelineOutcome OutboundOutcome) : List PendingSessionEvent :=
  pendingSessionWithTimeoutEvents
    (fun oo => startPendingOutboundEvents oo sessionId remoteAddr remotePeerId hello extraHandlers)
    sessionId remoteAddr (.outgoing remotePeerId) o

/-! ## The world: manager state plus in-flight handshake tasks

`Step` is the nondeterministic small-step relation covering the claims'
operations: `accept` (`on_incoming`), `dial` (`dial_outbound`), delivery of a
spawned pipeline's terminal event into the pending-session channel, arrival of
an active-session message, and one `poll` invocation that made progress. -/

/-- The manager together with the spawned handshake pipelines that have not
yet delivered their terminal event. -/
structure World where
  mgr : SessionManager
  tasks : List PendingTask

/-- The initial world: a fresh manager and no in-flight handshakes. -/
def World.init (limits : SessionLimits) (sessionCommandBuffer : Nat) : World :=
  { mgr := SessionManager.new limits sessionCommandBuffer, tasks := [] }

/-- One step of the session subsystem. -/
inductive Step : World → World → Prop
  | accept (w : World) (addr : SocketAddr) :
      Step w ⟨(w.mgr.onIncoming addr).2.1, w.tasks ++ (w.mgr.onIncoming addr).2.2⟩
  | dial (w : World) (addr : SocketAddr) (peer : PeerId) :
      Step w ⟨(w.mgr.dialOutbound addr peer).1, w.tasks ++ (w.mgr.dialOutbound addr peer).2⟩
  | deliver (w : World) (l1 l2 : List PendingTask) (t : PendingTask)
      (ev : PendingSessionEvent)
      (htasks : w.tasks = l1 ++ t :: l2)
      (hsid : ev.sessionId = t.sid) (hdir : ev.direction = t.direction) :
      Step w ⟨{ w.mgr with pendingRx := w.mgr.pendingRx ++ [ev] }, l1 ++ l2⟩
  | activeMsg (w : World) (msg : ActiveSessionMessage) :
      Step w ⟨{ w.mgr with activeRx := w.mgr.activeRx ++ [msg] }, w.tasks⟩
  | pollStep (w : World) (ev : SessionEvent) (m2 : SessionManager)
      (sp : List SpawnedTask) (h : w.mgr.poll = some (ev, m2, sp)) :
      Step w ⟨m2, w.tasks⟩

/-- Worlds reachable from some initial configuration by `Step`s. -/
inductive Reachable : World → Prop
  | init (limits : SessionLimits) (buf : Nat) : Reachable (World.init limits buf)
  | step (w w' : World) : Reachable w → Step w w' → Reachable w'

/-- Number of pending-session handles whose direction class matches `b`
(`b = true` for incoming). -/
def pendingCountDir (m : SessionManager) (b : Bool) : Nat :=
  (m.pendingSessions.filter (fun p => p.2.direction.isIncoming == b)).length

/-- Number of active-session handles whose direction class matches `b`. -/
def activeCountDir (m : SessionManager) (b : Bool) : Nat :=
  (m.activeSessions.filter (fun p => p.2.direction.isIncoming == b)).length

/-- The counter's pending field for a direction class. -/
def counterPendingDir (c : SessionCounter) (b : Bool) : Nat :=
  if b then c.pendingInbound else c.pendingOutbound

/-- The counter's active field for a direction class. -/
def counterActiveDir (c : SessionCounter) (b : Bool) : Nat :=
  if b then c.activeInbound else c.activeOutbound

/-- The configured limit for a direction class. -/
def limitDir (c : SessionCounter) (b : Bool) : Option Nat :=
  if b then c.limits.maxInbound else c.limits.maxOutbound

/-- Direction of the pending handle recorded for a session id. -/
def lookupDirection (l : List (Nat × PendingSessionHandle)) (sid : Nat) :
    Option Direction :=
  (l.find? (fun p => p.1 == sid)).map (fun p => p.2.direction)

/-- Erasing the first match of `q` removes exactly one `p`-satisfying element
when the erased element satisfies `p`, and none otherwise. -/
theorem filter_length_eraseP_of_find {α : Type} (p q : α → Bool) {l : List α}
    {a : α} (h : l.find? q = some a) :
    (l.filter p).length = ((l.eraseP q).filter p).length + (if p a then 1 else 0) := by
  induction l with
  | nil => simp at h
  | cons x t ih =>
    by_cases hq : q x
    · rw [List.find?_cons_of_pos _ hq] at h
      injection h with hxa
      subst hxa
      rw [List.eraseP_cons_of_pos hq]
      by_cases hp : p x <;> simp [List.filter_cons, hp]
    · rw [List.find?_cons_of_neg _ hq] at h
      rw [List.eraseP_cons_of_neg hq]
      by_cases hp : p x
      · simp only [List.filter_cons, hp, if_true, List.length_cons, ih h]
        omega
      · simp [List.filter_cons, hp, ih h]

/-- Erasing the first match of `q` does not change `find?` for a predicate `r`
disjoint from `q`. -/
theorem find?_eraseP_of_disjoint {α : Type} (q r : α → Bool) {l : List α}
    (hdisj : ∀ x, q x = true → r x = false) :
    (l.eraseP q).find? r = l.find? r := by
  induction l with
  | nil => simp
  | cons x t ih =>
    by_cases hq : q x
    · rw [List.eraseP_cons_of_pos hq]
      rw [List.find?_cons_of_neg _ (by simp [hdisj x hq])]
    · rw [List.eraseP_cons_of_neg hq]
      by_cases hr : r x
      · rw [List.find?_cons_of_pos _ hr, List.find?_cons_of_pos _ hr]
      · rw [List.find?_cons_of_neg _ hr, List.find?_cons_of_neg _ hr, ih]

/-- The inductive invariant of the session subsystem: the admission counters
agree with the session tables, each per-direction `pending + active` sum
respects the configured limit, session ids are fresh and unique across
in-flight pipelines and queued events, every in-flight pipeline and queued
event is tracked by a pending handle of matching direction, and the active
table has at most one entry per peer. -/
structure Inv (w : World) : Prop where
  pendingEq : ∀ b, counterPendingDir w.mgr.counter b = pendingCountDir w.mgr b
  activeEq : ∀ b, counterActiveDir w.mgr.counter b = activeCountDir w.mgr b
  limitOk : ∀ b L, limitDir w.mgr.counter b = some L →
      counterPendingDir w.mgr.counter b + counterActiveDir w.mgr.counter b ≤ L
  freshPending : ∀ p ∈ w.mgr.pendingSessions, p.1 < w.mgr.nextIdCtr
  freshTasks : ∀ t ∈ w.tasks, t.sid < w.mgr.nextIdCtr
  freshQueue : ∀ e ∈ w.mgr.pendingRx, e.sessionId < w.mgr.nextIdCtr
  sidNodup : (w.tasks.map PendingTask.sid ++
      w.mgr.pendingRx.map PendingSessionEvent.sessionId).Nodup
  trackedTasks : ∀ t ∈ w.tasks,
      lookupDirection w.mgr.pendingSessions t.sid = some t.direction
  trackedQueue : ∀ e ∈ w.mgr.pendingRx,
      lookupDirection w.mgr.pendingSessions e.sessionId = some e.direction
  activeNodup : (w.mgr.activeSessions.map Prod.fst).Nodup
  pendingKeyNodup : (w.mgr.pendingSessions.map Prod.fst).Nodup

/-- A recorded direction yields a concrete `find?` result of that direction. -/
theorem lookupDirection_find {l : List (Nat × PendingSessionHandle)} {sid : Nat}
    {dir : Direction} (h : lookupDirection l sid = some dir) :
    ∃ entry, l.find? (fun p => p.1 == sid) = some entry ∧ entry.2.direction = dir := by
  unfold lookupDirection at h
  cases hf : l.find? (fun p => p.1 == sid) with
  | none => rw [hf] at h; simp at h
  | some entry =>
    rw [hf] at h
    simp at h
    exact ⟨entry, rfl, h⟩

/-- `remove_pending_session` on a tracked id: erase the handle and decrement
the pending counter for its recorded direction. -/
theorem removePendingSession_eq (m : SessionManager) (sid : Nat) (dir : Direction)
    (h : lookupDirection m.pendingSessions sid = some dir) :
    m.removePendingSession sid =
      { m with pendingSessions := m.pendingSessions.eraseP (fun p => p.1 == sid),
               counter := m.counter.decPending dir } := by
  obtain ⟨entry, hf, hdir⟩ := lookupDirection_find h
  unfold SessionManager.removePendingSession
  rw [hf]
  simp [hdir]

/-- `remove_active_session` on a present peer: erase the handle and decrement
the active counter for its direction. -/
theorem removeActiveSession_eq {m : SessionManager} {peer : PeerId}
    {entry : PeerId × ActiveSessionHandle}
    (h : m.activeSessions.find? (fun p => p.1 == peer) = some entry) :
    m.removeActiveSession peer =
      { m with activeSessions := m.activeSessions.eraseP (fun p => p.1 == peer),
               counter := m.counter.decActive entry.2.direction } := by
  unfold SessionManager.removeActiveSession
  rw [h]

/-- `remove_active_session` on an absent peer is the identity. -/
theorem removeActiveSession_absent {m : SessionManager} {peer : PeerId}
    (h : m.activeSessions.find? (fun p => p.1 == peer) = none) :
    m.removeActiveSession peer = m := by
  unfold SessionManager.removeActiveSession
  rw [h]

/-- `decPending` per direction class. -/
theorem counterPendingDir_decPending (c : SessionCounter) (dir : Direction) (b : Bool) :
    counterPendingDir (c.decPending dir) b =
      counterPendingDir c b - (if dir.isIncoming == b then 1 else 0) := by
  cases dir <;> cases b <;>
    simp [counterPendingDir, SessionCounter.decPending, Direction.isIncoming]

/-- `decPending` does not change active counts. -/
theorem counterActiveDir_decPending (c : SessionCounter) (dir : Direction) (b : Bool) :
    counterActiveDir (c.decPending dir) b = counterActiveDir c b := by
  cases dir <;> cases b <;>
    simp [counterActiveDir, SessionCounter.decPending]

/-- `decPending` does not change the limits. -/
theorem limitDir_decPending (c : SessionCounter) (dir : Direction) (b : Bool) :
    limitDir (c.decPending dir) b = limitDir c b := by
  cases dir <;> cases b <;> simp [limitDir, SessionCounter.decPending]

/-- `decActive` per direction class. -/
theorem counterActiveDir_decActive (c : SessionCounter) (dir : Direction) (b : Bool) :
    counterActiveDir (c.decActive dir) b =
      counterActiveDir c b - (if dir.isIncoming == b then 1 else 0) := by
  cases dir <;> cases b <;>
    simp [counterActiveDir, SessionCounter.decActive, Direction.isIncoming]

/-- `decActive` does not change pending counts. -/
theorem counterPendingDir_decActive (c : SessionCounter) (dir : Direction) (b : Bool) :
    counterPendingDir (c.decActive dir) b = counterPendingDir c b := by
  cases dir <;> cases b <;>
    simp [counterPendingDir, SessionCounter.decActive]

/-- `decActive` does not change the limits. -/
theorem limitDir_decActive (c : SessionCounter) (dir : Direction) (b : Bool) :
    limitDir (c.decActive dir) b = limitDir c b := by
  cases dir <;> cases b <;> simp [limitDir, SessionCounter.decActive]

/-- `incActive` per direction class. -/
theorem counterActiveDir_incActive (c : SessionCounter) (dir : Direction) (b : Bool) :
    counterActiveDir (c.incActive dir) b =
      counterActiveDir c b + (if dir.isIncoming == b then 1 else 0) := by
  cases dir <;> cases b <;>
    simp [counterActiveDir, SessionCounter.incActive, Direction.isIncoming]

/-- `incActive` does not change pending counts. -/
theorem counterPendingDir_incActive (c : SessionCounter) (dir : Direction) (b : Bool) :
    counterPendingDir (c.incActive dir) b = counterPendingDir c b := by
  cases dir <;> cases b <;>
    simp [counterPendingDir, SessionCounter.incActive]

/-- `incActive` does not change the limits. -/
theorem limitDir_incActive (c : SessionCounter) (dir : Direction) (b : Bool) :
    limitDir (c.incActive dir) b = limitDir c b := by
  cases dir <;> cases b <;> simp [limitDir, SessionCounter.incActive]

/-- Erasing a tracked pending handle removes exactly one handle, of the
recorded direction class. -/
theorem pendingCount_erase {l : List (Nat × PendingSessionHandle)} {sid : Nat}
    {dir : Direction} (h : lookupDirection l sid = some dir) (b : Bool) :
    (l.filter (fun p => p.2.direction.isIncoming == b)).length =
      ((l.eraseP (fun p => p.1 == sid)).filter
        (fun p => p.2.direction.isIncoming == b)).length +
      (if dir.isIncoming == b then 1 else 0) := by
  obtain ⟨entry, hf, hdir⟩ := lookupDirection_find h
  have := filter_length_eraseP_of_find
    (fun (p : Nat × PendingSessionHandle) => p.2.direction.isIncoming == b)
    (fun p => p.1 == sid) hf
  simpa [hdir] using this

/-- Erasing one key leaves `find?` on a different key unchanged. -/
theorem find?_eraseP_ne {α : Type} {l : List (Nat × α)} {s s2 : Nat} (hne : s ≠ s2) :
    (l.eraseP (fun p => p.1 == s)).find? (fun p => p.1 == s2) =
      l.find? (fun p => p.1 == s2) := by
  refine find?_eraseP_of_disjoint _ _ ?_
  intro x hx
  simp only [beq_iff_eq] at hx
  simp [hx, hne]

/-- `lookupDirection` after erasing a different key. -/
theorem lookupDirection_eraseP_ne {l : List (Nat × PendingSessionHandle)}
    {s s2 : Nat} (hne : s ≠ s2) :
    lookupDirection (l.eraseP (fun p => p.1 == s)) s2 = lookupDirection l s2 := by
  unfold lookupDirection
  rw [find?_eraseP_ne hne]

/-- `containsKey` is key membership of the mapped keys. -/
theorem containsKey_eq_false_iff {α : Type} {l : List (Nat × α)} {k : Nat} :
    containsKey k l = false ↔ k ∉ l.map Prod.fst := by
  unfold containsKey
  rw [List.any_eq_false]
  constructor
  · intro hall hmem
    obtain ⟨p, hp, hk⟩ := List.mem_map.mp hmem
    exact hall p hp (by simp [hk])
  · intro hnot p hp hk
    exact hnot (List.mem_map.mpr ⟨p, hp, by simpa using hk⟩)

/-- A successful inbound admission check means strict headroom under the limit. -/
theorem ensurePendingInbound_ok {c : SessionCounter} {u : Unit} {L : Nat}
    (h : c.ensurePendingInbound = .ok u) (hL : c.limits.maxInbound = some L) :
    c.pendingInbound + c.activeInbound < L := by
  unfold SessionCounter.ensurePendingInbound at h
  rw [hL] at h
  by_cases hlt : c.pendingInbound + c.activeInbound < L
  · exact hlt
  · simp [hlt] at h

/-- A successful outbound admission check means strict headroom under the limit. -/
theorem ensurePendingOutbound_ok {c : SessionCounter} {u : Unit} {L : Nat}
    (h : c.ensurePendingOutbound = .ok u) (hL : c.limits.maxOutbound = some L) :
    c.pendingOutbound + c.activeOutbound < L := by
  unfold SessionCounter.ensurePendingOutbound at h
  rw [hL] at h
  by_cases hlt : c.pendingOutbound + c.activeOutbound < L
  · exact hlt
  · simp [hlt] at h

/-- `on_incoming` preserves the invariant. -/
theorem inv_onIncoming (w : World) (addr : SocketAddr) (h : Inv w) :
    Inv ⟨(w.mgr.onIncoming addr).2.1, w.tasks ++ (w.mgr.onIncoming addr).2.2⟩ := by
  obtain ⟨m, tasks⟩ := w
  obtain ⟨hpe, hae, hlim, hfp, hft, hfq, hnd, htt, htq, han, hkn⟩ := h
  simp only at hpe hae hlim hfp hft hfq hnd htt htq han hkn
  unfold SessionManager.onIncoming
  cases hens : m.counter.ensurePendingInbound with
  | error e =>
    simp only [List.append_nil]
    exact ⟨hpe, hae, hlim, hfp, hft, hfq, hnd, htt, htq, han, hkn⟩
  | ok u =>
    simp only
    refine ⟨?_, ?_, ?_, ?_, ?_, ?_, ?_, ?_, ?_, ?_, ?_⟩
    · intro b
      have hb := hpe b
      cases b <;>
        simp_all [counterPendingDir, pendingCountDir, SessionCounter.incPendingInbound,
          List.filter_cons, Direction.isIncoming]
    · intro b
      have hb := hae b
      cases b <;>
        simp_all [counterActiveDir, activeCountDir, SessionCounter.incPendingInbound]
    · intro b L hL
      cases b with
      | true =>
        simp only [limitDir, SessionCounter.incPendingInbound, if_pos] at hL
        have := ensurePendingInbound_ok hens hL
        simp only [counterPendingDir, counterActiveDir, SessionCounter.incPendingInbound,
          if_pos]
        omega
      | false =>
        have hold := hlim false L
        simp only [limitDir, SessionCounter.incPendingInbound] at hL hold
        simp only [counterPendingDir, counterActiveDir,
          SessionCounter.incPendingInbound] at hold ⊢
        simp only [Bool.false_eq_true, if_false] at hold ⊢
        exact hold hL
    · intro p hp
      simp only [List.mem_cons] at hp
      rcases hp with rfl | hp
      · simp
      · exact Nat.lt_succ_of_lt (hfp p hp)
    · intro t ht
      simp only [List.mem_append, List.mem_singleton] at ht
      rcases ht with ht | rfl
      · exact Nat.lt_succ_of_lt (hft t ht)
      · simp
    · intro e he
      exact Nat.lt_succ_of_lt (hfq e he)
    · simp only [List.map_append, List.map_cons, List.map_nil]
      rw [List.append_assoc, List.singleton_append, List.nodup_middle, List.nodup_cons]
      constructor
      · intro hmem
        simp only [List.mem_append, List.mem_map] at hmem
        rcases hmem with ⟨t, ht, hsid⟩ | ⟨e, he, hsid⟩
        · exact absurd hsid (Nat.ne_of_gt (hft t ht)).symm
        · exact absurd hsid (Nat.ne_of_gt (hfq e he)).symm
      · exact hnd
    · intro t ht
      simp only [List.mem_append, List.mem_singleton] at ht
      rcases ht with ht | rfl
      · have := htt t ht
        unfold lookupDirection at this ⊢
        rw [List.find?_cons_of_neg]
        · exact this
        · have := hft t ht
          simp only [beq_iff_eq]
          omega
      · unfold lookupDirection
        rw [List.find?_cons_of_pos _ (by simp)]
        rfl
    · intro e he
      have := htq e he
      unfold lookupDirection at this ⊢
      rw [List.find?_cons_of_neg]
      · exact this
      · have := hfq e he
        simp only [beq_iff_eq]
        omega
    · exact han
    · simp only [List.map_cons, List.nodup_cons]
      refine ⟨?_, hkn⟩
      intro hmem
      obtain ⟨p, hp, hk⟩ := List.mem_map.mp hmem
      exact absurd hk (Nat.ne_of_gt (hfp p hp)).symm

/-- `dial_outbound` preserves the invariant. -/
theorem inv_dialOutbound (w : World) (addr : SocketAddr) (peer : PeerId) (h : Inv w) :
    Inv ⟨(w.mgr.dialOutbound addr peer).1, w.tasks ++ (w.mgr.dialOutbound addr peer).2⟩ := by
  obtain ⟨m, tasks⟩ := w
  obtain ⟨hpe, hae, hlim, hfp, hft, hfq, hnd, htt, htq, han, hkn⟩ := h
  simp only at hpe hae hlim hfp hft hfq hnd htt htq han hkn
  unfold SessionManager.dialOutbound
  cases hens : m.counter.ensurePendingOutbound with
  | error e =>
    rw [if_neg (by simp [hens, Except.isOk, Except.toBool])]
    simp only [List.append_nil]
    exact ⟨hpe, hae, hlim, hfp, hft, hfq, hnd, htt, htq, han, hkn⟩
  | ok u =>
    rw [if_pos (by simp [hens, Except.isOk, Except.toBool])]
    simp only
    refine ⟨?_, ?_, ?_, ?_, ?_, ?_, ?_, ?_, ?_, ?_, ?_⟩
    · intro b
      have hb := hpe b
      cases b <;>
        simp_all [counterPendingDir, pendingCountDir, SessionCounter.incPendingOutbound,
          List.filter_cons, Direction.isIncoming]
    · intro b
      have hb := hae b
      cases b <;>
        simp_all [counterActiveDir, activeCountDir, SessionCounter.incPendingOutbound]
    · intro b L hL
      cases b with
      | false =>
        simp only [limitDir, SessionCounter.incPendingOutbound] at hL
        simp only [Bool.false_eq_true, if_false] at hL
        have := ensurePendingOutbound_ok hens hL
        simp only [counterPendingDir, counterActiveDir, SessionCounter.incPendingOutbound,
          Bool.false_eq_true, if_false]
        omega
      | true =>
        have hold := hlim true L
        simp only [limitDir, SessionCounter.incPendingOutbound, if_pos] at hL hold
        simp only [counterPendingDir, counterActiveDir,
          SessionCounter.incPendingOutbound, if_pos] at hold ⊢
        exact hold hL
    · intro p hp
      simp only [List.mem_cons] at hp
      rcases hp with rfl | hp
      · simp
      · exact Nat.lt_succ_of_lt (hfp p hp)
    · intro t ht
      simp only [List.mem_append, List.mem_singleton] at ht
      rcases ht with ht | rfl
      · exact Nat.lt_succ_of_lt (hft t ht)
      · simp
    · intro e he
      exact Nat.lt_succ_of_lt (hfq e he)
    · simp only [List.map_append, List.map_cons, List.map_nil]
      rw [List.append_assoc, List.singleton_append, List.nodup_middle, List.nodup_cons]
      constructor
      · intro hmem
        simp only [List.mem_append, List.mem_map] at hmem
        rcases hmem with ⟨t, ht, hsid⟩ | ⟨e, he, hsid⟩
        · exact absurd hsid (Nat.ne_of_gt (hft t ht)).symm
        · exact absurd hsid (Nat.ne_of_gt (hfq e he)).symm
      · exact hnd
    · intro t ht
      simp only [List.mem_append, List.mem_singleton] at ht
      rcases ht with ht | rfl
      · have := htt t ht
        unfold lookupDirection at this ⊢
        rw [List.find?_cons_of_neg]
        · exact this
        · have := hft t ht
          simp only [beq_iff_eq]
          omega
      · unfold lookupDirection
        rw [List.find?_cons_of_pos _ (by simp)]
        rfl
    · intro e he
      have := htq e he
      unfold lookupDirection at this ⊢
      rw [List.find?_cons_of_neg]
      · exact this
      · have := hfq e he
        simp only [beq_iff_eq]
        omega
    · exact han
    · simp only [List.map_cons, List.nodup_cons]
      refine ⟨?_, hkn⟩
      intro hmem
      obtain ⟨p, hp, hk⟩ := List.mem_map.mp hmem
      exact absurd hk (Nat.ne_of_gt (hfp p hp)).symm

/-- Moving an element from the middle of a nodup list to its end keeps it
nodup. -/
theorem nodup_shift {α : Type} (A B Q : List α) (s : α)
    (h : (A ++ (s :: (B ++ Q))).Nodup) : (A ++ (B ++ (Q ++ [s]))).Nodup := by
  have hp1 : (Q ++ [s]).Perm (s :: Q) := List.perm_append_singleton s Q
  have hp2 := hp1.append_left B
  have hp3 := hp2.append_left A
  have hp4 : (B ++ s :: Q).Perm (s :: (B ++ Q)) := List.perm_middle
  have hp5 := hp4.append_left A
  have hperm := hp3.trans hp5
  exact hperm.nodup_iff.mpr h

/-- Delivering a pipeline's terminal event preserves the invariant. -/
theorem inv_deliver (w : World) (l1 l2 : List PendingTask) (t : PendingTask)
    (ev : PendingSessionEvent) (htasks : w.tasks = l1 ++ t :: l2)
    (hsid : ev.sessionId = t.sid) (hdir : ev.direction = t.direction) (h : Inv w) :
    Inv ⟨{ w.mgr with pendingRx := w.mgr.pendingRx ++ [ev] }, l1 ++ l2⟩ := by
  obtain ⟨m, tasks⟩ := w
  obtain ⟨hpe, hae, hlim, hfp, hft, hfq, hnd, htt, htq, han, hkn⟩ := h
  simp only at hpe hae hlim hfp hft hfq hnd htt htq han hkn htasks
  subst htasks
  refine ⟨hpe, hae, hlim, hfp, ?_, ?_, ?_, ?_, ?_, han, hkn⟩
  · intro x hx
    exact hft x (by simp only [List.mem_append, List.mem_cons] at hx ⊢; tauto)
  · intro e he
    simp only [List.mem_append, List.mem_singleton] at he
    rcases he with he | rfl
    · exact hfq e he
    · rw [hsid]; exact hft t (by simp)
  · have hshift := nodup_shift (List.map PendingTask.sid l1)
      (List.map PendingTask.sid l2)
      (List.map PendingSessionEvent.sessionId m.pendingRx) t.sid
    simp only [List.map_append, List.map_cons, List.map_singleton, hsid,
      List.append_assoc, List.cons_append] at hnd ⊢
    exact hshift hnd
  · intro x hx
    exact htt x (by simp only [List.mem_append, List.mem_cons] at hx ⊢; tauto)
  · intro e he
    simp only [List.mem_append, List.mem_singleton] at he
    rcases he with he | rfl
    · exact htq e he
    · rw [hsid, hdir]; exact htt t (by simp)

/-- An arriving active-session message preserves the invariant. -/
theorem inv_activeMsg (w : World) (msg : ActiveSessionMessage) (h : Inv w) :
    Inv ⟨{ w.mgr with activeRx := w.mgr.activeRx ++ [msg] }, w.tasks⟩ := by
  obtain ⟨m, tasks⟩ := w
  obtain ⟨hpe, hae, hlim, hfp, hft, hfq, hnd, htt, htq, han, hkn⟩ := h
  exact ⟨hpe, hae, hlim, hfp, hft, hfq, hnd, htt, htq, han, hkn⟩

/-- `remove_active_session` preserves the invariant (for any manager state). -/
theorem inv_removeActive (m : SessionManager) (tasks : List PendingTask)
    (peer : PeerId) (h : Inv ⟨m, tasks⟩) :
    Inv ⟨m.removeActiveSession peer, tasks⟩ := by
  obtain ⟨hpe, hae, hlim, hfp, hft, hfq, hnd, htt, htq, han, hkn⟩ := h
  simp only at hpe hae hlim hfp hft hfq hnd htt htq han hkn
  cases hf : m.activeSessions.find? (fun p => p.1 == peer) with
  | none => rw [removeActiveSession_absent hf]
            exact ⟨hpe, hae, hlim, hfp, hft, hfq, hnd, htt, htq, han, hkn⟩
  | some entry =>
    rw [removeActiveSession_eq hf]
    refine ⟨?_, ?_, ?_, hfp, hft, hfq, hnd, htt, htq, ?_, hkn⟩
    · intro b
      rw [counterPendingDir_decActive]
      exact hpe b
    · intro b
      have hcnt := filter_length_eraseP_of_find
        (fun (p : PeerId × ActiveSessionHandle) => p.2.direction.isIncoming == b)
        (fun p => p.1 == peer) hf
      simp only at hcnt
      rw [counterActiveDir_decActive]
      have hb := hae b
      simp only [counterActiveDir, activeCountDir] at hb ⊢
      omega
    · intro b L hL
      rw [limitDir_decActive] at hL
      have := hlim b L hL
      rw [counterPendingDir_decActive, counterActiveDir_decActive]
      omega
    · exact (List.eraseP_sublist _).map Prod.fst |>.nodup han

/-- Removing the pending handle of the head of the pending-event queue
preserves the invariant, and the pending counter of the event's direction
class was decremented by exactly one. -/
theorem inv_afterRemovePending (m : SessionManager) (tasks : List PendingTask)
    (ev0 : PendingSessionEvent) (prest : List PendingSessionEvent)
    (hprx : m.pendingRx = ev0 :: prest) (h : Inv ⟨m, tasks⟩) :
    Inv { mgr := { m with
                   pendingRx := prest,
                   pendingSessions :=
                     m.pendingSessions.eraseP (fun p => p.1 == ev0.sessionId),
                   counter := m.counter.decPending ev0.direction },
          tasks := tasks } ∧
    ∀ b, counterPendingDir (m.counter.decPending ev0.direction) b +
        (if ev0.direction.isIncoming == b then 1 else 0) = counterPendingDir m.counter b := by
  obtain ⟨hpe, hae, hlim, hfp, hft, hfq, hnd, htt, htq, han, hkn⟩ := h
  simp only at hpe hae hlim hfp hft hfq hnd htt htq han hkn
  have hmem0 : ev0 ∈ m.pendingRx := by rw [hprx]; simp
  have hlookup := htq ev0 hmem0
  have hcnt := fun b => pendingCount_erase hlookup b
  have hdisj := List.disjoint_of_nodup_append hnd
  have hqnd : (List.map PendingSessionEvent.sessionId m.pendingRx).Nodup :=
    List.Nodup.of_append_right hnd
  have hpend : ∀ b, counterPendingDir (m.counter.decPending ev0.direction) b +
      (if ev0.direction.isIncoming == b then 1 else 0) = counterPendingDir m.counter b := by
    intro b
    rw [counterPendingDir_decPending]
    have hb := hpe b
    have := hcnt b
    simp only [pendingCountDir] at hb
    omega
  refine ⟨⟨?_, ?_, ?_, ?_, hft, ?_, ?_, ?_, ?_, han,
    ((List.eraseP_sublist _).map Prod.fst).nodup hkn⟩, hpend⟩
  · intro b
    have := hcnt b
    have hb := hpe b
    simp only [pendingCountDir] at hb ⊢
    rw [counterPendingDir_decPending]
    omega
  · intro b
    rw [counterActiveDir_decPending]
    exact hae b
  · intro b L hL
    rw [limitDir_decPending] at hL
    have := hlim b L hL
    rw [counterPendingDir_decPending, counterActiveDir_decPending]
    omega
  · intro p hp
    exact hfp p ((List.eraseP_sublist _).subset hp)
  · intro e he
    exact hfq e (by rw [hprx]; simp [he])
  · refine List.Nodup.sublist ?_ hnd
    refine List.Sublist.append_left ?_ _
    rw [hprx]
    simp only [List.map_cons]
    exact List.sublist_cons_self _ _
  · intro t ht
    have hne : ev0.sessionId ≠ t.sid := by
      intro hcon
      refine hdisj (a := t.sid) ?_ ?_
      · exact List.mem_map.mpr ⟨t, ht, rfl⟩
      · rw [hprx]; simp [← hcon]
    rw [lookupDirection_eraseP_ne hne]
    exact htt t ht
  · intro e he
    have hne : ev0.sessionId ≠ e.sessionId := by
      rw [hprx] at hqnd
      simp only [List.map_cons, List.nodup_cons] at hqnd
      intro hcon
      exact hqnd.1 (hcon ▸ List.mem_map.mpr ⟨e, he, rfl⟩)
    rw [lookupDirection_eraseP_ne hne]
    exact htq e (by rw [hprx]; simp [he])

/-- The `Established` branch of `poll` for a fresh peer preserves the
invariant: the pending handle is retired, the active handle inserted, and the
per-direction `pending + active` sum is unchanged. -/
theorem inv_pollEstablished (m : SessionManager) (tasks : List PendingTask)
    (sid : Nat) (addr : SocketAddr) (peer : PeerId) (caps : List Capability)
    (dir : Direction) (prest : List PendingSessionEvent) (d2 : Nat)
    (hprx : m.pendingRx = .established sid addr peer caps dir :: prest)
    (hcont : containsKey peer m.activeSessions = false)
    (h : Inv ⟨m, tasks⟩) :
    Inv { mgr := { m with
                   pendingRx := prest,
                   pendingSessions := m.pendingSessions.eraseP (fun p => p.1 == sid),
                   activeSessions := (peer,
                     { direction := dir, sessionId := sid, remoteId := peer,
                       capabilities := caps, remoteAddr := addr,
                       commandsQueued := 0, commandsClosed := false }) ::
                     m.activeSessions,
                   counter := (m.counter.decPending dir).incActive dir,
                   dialSuccesses := d2 },
          tasks := tasks } := by
  have hrem := inv_afterRemovePending m tasks (.established sid addr peer caps dir)
    prest hprx h
  simp only [PendingSessionEvent.sessionId, PendingSessionEvent.direction] at hrem
  obtain ⟨⟨hpe, hae, hlim, hfp, hft, hfq, hnd, htt, htq, han, hkn⟩, hpend⟩ := hrem
  simp only at hpe hae hlim hfp hft hfq hnd htt htq han hkn
  obtain ⟨hpe0, hae0, hlim0, _, _, _, _, _, _, _, _⟩ := h
  simp only at hpe0 hae0 hlim0
  refine ⟨?_, ?_, ?_, hfp, hft, hfq, hnd, htt, htq, ?_, hkn⟩
  · intro b
    rw [counterPendingDir_incActive]
    exact hpe b
  · intro b
    rw [counterActiveDir_incActive]
    have hb := hae b
    simp only [activeCountDir, List.filter_cons] at hb ⊢
    by_cases hcls : dir.isIncoming = b
    · simp [hcls, hb]
    · have : (dir.isIncoming == b) = false := by simp [hcls]
      simp [this, hb]
  · intro b L hL
    rw [limitDir_incActive, limitDir_decPending] at hL
    have hold := hlim0 b L hL
    have hp := hpend b
    rw [counterPendingDir_incActive, counterActiveDir_incActive,
      counterActiveDir_decPending]
    omega
  · simp only [List.map_cons, List.nodup_cons]
    exact ⟨containsKey_eq_false_iff.mp hcont, han⟩

/-- The invariant never mentions the active-session receiver queue, so its
contents are irrelevant. -/
theorem inv_activeRx_any {n : Nat} {c : SessionCounter} {b : Nat}
    {ps : List (Nat × PendingSessionHandle)} {as : List (PeerId × ActiveSessionHandle)}
    {prx : List PendingSessionEvent} {arx1 arx2 : List ActiveSessionMessage}
    {dc dm ds : Nat} {tasks : List PendingTask}
    (h : Inv ⟨⟨n, c, b, ps, as, prx, arx1, dc, dm, ds⟩, tasks⟩) :
    Inv ⟨⟨n, c, b, ps, as, prx, arx2, dc, dm, ds⟩, tasks⟩ := by
  obtain ⟨hpe, hae, hlim, hfp, hft, hfq, hnd, htt, htq, han, hkn⟩ := h
  exact ⟨hpe, hae, hlim, hfp, hft, hfq, hnd, htt, htq, han, hkn⟩

/-- `poll` preserves the invariant. -/
theorem inv_poll (w : World) (ev : SessionEvent) (m2 : SessionManager)
    (sp : List SpawnedTask) (hp : w.mgr.poll = some (ev, m2, sp)) (h : Inv w) :
    Inv ⟨m2, w.tasks⟩ := by
  obtain ⟨m, tasks⟩ := w
  simp only at hp ⊢
  unfold SessionManager.poll at hp
  cases harx : m.activeRx with
  | cons msg arest =>
    rw [harx] at hp
    have h2 : Inv ⟨{ m with activeRx := arest }, tasks⟩ := by
      obtain ⟨hpe, hae, hlim, hfp, hft, hfq, hnd, htt, htq, han, hkn⟩ := h
      exact ⟨hpe, hae, hlim, hfp, hft, hfq, hnd, htt, htq, han, hkn⟩
    cases msg with
    | disconnected peer addr =>
      simp only [Option.some.injEq, Prod.mk.injEq] at hp
      obtain ⟨he, hm, hs⟩ := hp
      subst hm
      exact inv_removeActive _ tasks peer h2
    | closedOnConnectionError peer addr err =>
      simp only [Option.some.injEq, Prod.mk.injEq] at hp
      obtain ⟨he, hm, hs⟩ := hp
      subst hm
      exact inv_removeActive _ tasks peer h2
    | validMessage peer payload =>
      simp only [Option.some.injEq, Prod.mk.injEq] at hp
      obtain ⟨he, hm, hs⟩ := hp
      subst hm
      exact h2
    | badMessage peer =>
      simp only [Option.some.injEq, Prod.mk.injEq] at hp
      obtain ⟨he, hm, hs⟩ := hp
      subst hm
      exact h2
    | protocolBreach peer =>
      simp only [Option.some.injEq, Prod.mk.injEq] at hp
      obtain ⟨he, hm, hs⟩ := hp
      subst hm
      exact h2
  | nil =>
    rw [harx] at hp
    cases hprx : m.pendingRx with
    | nil => rw [hprx] at hp; simp at hp
    | cons ev0 prest =>
      rw [hprx] at hp
      cases ev0 with
      | established sid addr peer caps dir =>
        have hlook : lookupDirection m.pendingSessions sid = some dir := by
          have := h.trackedQueue (.established sid addr peer caps dir)
            (by simp only; rw [hprx]; simp)
          simpa [PendingSessionEvent.sessionId, PendingSessionEvent.direction] using this
        have hrew := removePendingSession_eq
          { m with pendingRx := prest } sid dir hlook
        rw [harx] at hrew
        simp only at hp
        rw [hrew] at hp
        cases hcont : containsKey peer m.activeSessions with
        | true =>
          simp only [hcont, if_true, Option.some.injEq, Prod.mk.injEq] at hp
          obtain ⟨he, hm, hs⟩ := hp
          subst hm
          exact inv_activeRx_any (inv_afterRemovePending m tasks
            (.established sid addr peer caps dir) prest hprx h).1
        | false =>
          simp only [hcont, Bool.false_eq_true, if_false, Option.some.injEq,
            Prod.mk.injEq] at hp
          obtain ⟨he, hm, hs⟩ := hp
          subst hm
          exact inv_activeRx_any
            (inv_pollEstablished m tasks sid addr peer caps dir prest
              (if dir.isOutgoing = true then m.dialSuccesses + 1 else m.dialSuccesses)
              hprx hcont h)
      | disconnected addr sid dir err =>
        have hlook : lookupDirection m.pendingSessions sid = some dir := by
          have := h.trackedQueue (.disconnected addr sid dir err)
            (by simp only; rw [hprx]; simp)
          simpa [PendingSessionEvent.sessionId, PendingSessionEvent.direction] using this
        have hrew := removePendingSession_eq
          { m with pendingRx := prest } sid dir hlook
        rw [harx] at hrew
        simp only at hp
        rw [hrew] at hp
        cases dir with
        | incoming =>
          simp only [Option.some.injEq, Prod.mk.injEq] at hp
          obtain ⟨he, hm, hs⟩ := hp
          subst hm
          exact inv_activeRx_any (inv_afterRemovePending m tasks
            (.disconnected addr sid .incoming err) prest hprx h).1
        | outgoing peer =>
          simp only [Option.some.injEq, Prod.mk.injEq] at hp
          obtain ⟨he, hm, hs⟩ := hp
          subst hm
          exact inv_activeRx_any (inv_afterRemovePending m tasks
            (.disconnected addr sid (.outgoing peer) err) prest hprx h).1
      | outgoingConnectionError addr sid peer =>
        have hlook : lookupDirection m.pendingSessions sid = some (.outgoing peer) := by
          have := h.trackedQueue (.outgoingConnectionError addr sid peer)
            (by simp only; rw [hprx]; simp)
          simpa [PendingSessionEvent.sessionId, PendingSessionEvent.direction] using this
        have hrew := removePendingSession_eq
          { m with pendingRx := prest } sid (.outgoing peer) hlook
        rw [harx] at hrew
        simp only at hp
        rw [hrew] at hp
        simp only [Option.some.injEq, Prod.mk.injEq] at hp
        obtain ⟨he, hm, hs⟩ := hp
        subst hm
        exact inv_activeRx_any (inv_afterRemovePending m tasks
          (.outgoingConnectionError addr sid peer) prest hprx h).1
      | eciesAuthError addr sid dir =>
        have hlook : lookupDirection m.pendingSessions sid = some dir := by
          have := h.trackedQueue (.eciesAuthError addr sid dir)
            (by simp only; rw [hprx]; simp)
          simpa [PendingSessionEvent.sessionId, PendingSessionEvent.direction] using this
        have hrew := removePendingSession_eq
          { m with pendingRx := prest } sid dir hlook
        rw [harx] at hrew
        simp only at hp
        rw [hrew] at hp
        cases dir with
        | incoming =>
          simp only [Option.some.injEq, Prod.mk.injEq] at hp
          obtain ⟨he, hm, hs⟩ := hp
          subst hm
          exact inv_activeRx_any (inv_afterRemovePending m tasks
            (.eciesAuthError addr sid .incoming) prest hprx h).1
        | outgoing peer =>
          simp only [Option.some.injEq, Prod.mk.injEq] at hp
          obtain ⟨he, hm, hs⟩ := hp
          subst hm
          exact inv_activeRx_any (inv_afterRemovePending m tasks
            (.eciesAuthError addr sid (.outgoing peer)) prest hprx h).1

/-- Every step preserves the invariant. -/
theorem inv_step {w w2 : World} (hs : Step w w2) (h : Inv w) : Inv w2 := by
  cases hs with
  | accept addr => exact inv_onIncoming w addr h
  | dial addr peer => exact inv_dialOutbound w addr peer h
  | deliver l1 l2 t ev htasks hsid hdir => exact inv_deliver w l1 l2 t ev htasks hsid hdir h
  | activeMsg msg => exact inv_activeMsg w msg h
  | pollStep ev m2 sp hp => exact inv_poll w ev m2 sp hp h

/-- The invariant holds in the initial world. -/
theorem inv_init (limits : SessionLimits) (buf : Nat) : Inv (World.init limits buf) := by
  refine ⟨?_, ?_, ?_, ?_, ?_, ?_, ?_, ?_, ?_, ?_, ?_⟩ <;>
    first
    | intro b
      cases b <;>
        simp [World.init, SessionManager.new, SessionCounter.new, counterPendingDir,
          counterActiveDir, pendingCountDir, activeCountDir]
    | simp [World.init, SessionManager.new, SessionCounter.new]

/-- Every reachable world satisfies the invariant. -/
theorem inv_reachable {w : World} (h : Reachable w) : Inv w := by
  induction h with
  | init limits buf => exact inv_init limits buf
  | step w w2 hr hs ih => exact inv_step hs ih

/-! ## The graceful-disconnections limiter as a state machine -/

/-- State of the disconnections limiter: the `Arc` strong count of the shared
`DisconnectionsCounter` (the manager's own handle plus one clone per in-flight
graceful-disconnect task) and the number of such tasks. -/
structure DiscState where
  strongCount : Nat
  outstanding : Nat
deriving DecidableEq, Repr

/-- Steps of the limiter: a `try_disconnect_incoming_connection` call (which
clones the handle and spawns a task only under `has_capacity`), and the
completion of a task, which drops its clone on every exit path. -/
inductive DiscStep : DiscState → DiscState → Prop
  | attempt (s : DiscState) :
      DiscStep s ⟨(tryDisconnectIncomingConnection s.strongCount).1,
        if (tryDisconnectIncomingConnection s.strongCount).2 then s.outstanding + 1
        else s.outstanding⟩
  | finish (s : DiscState) (k : Nat) (h : s.outstanding = k + 1) :
      DiscStep s ⟨s.strongCount - 1, k⟩

/-- Limiter states reachable from a fresh manager (strong count 1, no task). -/
inductive DiscReachable : DiscState → Prop
  | init : DiscReachable ⟨1, 0⟩
  | step (s s2 : DiscState) : DiscReachable s → DiscStep s s2 → DiscReachable s2

/-- The limiter invariant: the strong count is one more than the number of
outstanding tasks, and at most 15 tasks are in flight. -/
theorem discReachable_inv {s : DiscState} (h : DiscReachable s) :
    s.strongCount = s.outstanding + 1 ∧
      s.outstanding ≤ maxConcurrentGracefulDisconnections := by
  induction h with
  | init => exact ⟨rfl, by simp [maxConcurrentGracefulDisconnections]⟩
  | step s s2 hr hs ih =>
    obtain ⟨h1, h2⟩ := ih
    cases hs with
    | attempt =>
      simp only [maxConcurrentGracefulDisconnections] at h2 ⊢
      simp only [tryDisconnectIncomingConnection, hasCapacity,
        maxConcurrentGracefulDisconnections]
      by_cases hc : s.strongCount ≤ 15
      · simp [hc]
        omega
      · simp [hc]
        omega
    | finish k hk =>
      simp only
      omega

/-! ## Helper facts about `poll` and the tables -/

/-- `remove_pending_session` never touches the active-session table. -/
theorem removePendingSession_activeSessions (m : SessionManager) (sid : Nat) :
    (m.removePendingSession sid).activeSessions = m.activeSessions := by
  unfold SessionManager.removePendingSession
  cases hf : m.pendingSessions.find? (fun p => p.1 == sid) <;> simp

/-- `remove_pending_session` never touches the active counters. -/
theorem removePendingSession_counterActive (m : SessionManager) (sid : Nat) (b : Bool) :
    counterActiveDir (m.removePendingSession sid).counter b =
      counterActiveDir m.counter b := by
  unfold SessionManager.removePendingSession
  cases hf : m.pendingSessions.find? (fun p => p.1 == sid)
  · simp
  · simp [counterActiveDir_decPending]

/-- On a key-nodup association list, erasing a key removes it entirely. -/
theorem containsKey_eraseP_self {α : Type} {l : List (Nat × α)} {k : Nat}
    (hnd : (l.map Prod.fst).Nodup) :
    containsKey k (l.eraseP (fun p => p.1 == k)) = false := by
  induction l with
  | nil => simp [containsKey]
  | cons x t ih =>
    simp only [List.map_cons, List.nodup_cons] at hnd
    by_cases hx : x.1 = k
    · rw [List.eraseP_cons_of_pos (by simp [hx])]
      simp only [containsKey, List.any_eq_false]
      intro p hp
      simp only [beq_iff_eq]
      intro hpk
      have hconn : p.1 ∈ t.map Prod.fst := List.mem_map.mpr ⟨p, hp, rfl⟩
      rw [hpk, ← hx] at hconn
      exact hnd.1 hconn
    · rw [List.eraseP_cons_of_neg (by simp [hx])]
      simp only [containsKey, List.any_cons, Bool.or_eq_false_iff]
      refine ⟨by simp [hx], ?_⟩
      have := ih hnd.2
      simpa [containsKey] using this

/-- A false `containsKey` gives a `none` lookup. -/
theorem find?_eq_none_of_containsKey_false {α : Type} {l : List (Nat × α)} {k : Nat}
    (h : containsKey k l = false) :
    l.find? (fun p => p.1 == k) = none := by
  rw [List.find?_eq_none]
  intro x hx
  simp only [containsKey, List.any_eq_false] at h
  exact h x hx

/-! ## Characterizing the extra-capability negotiation -/

/-- Closed form of `addExtraProtocols`: every registered handler's capability
is appended to the advertised list and every handler is retained. -/
theorem addExtraProtocols_eq (hello : HelloMessage) (handlers : List ProtocolHandler) :
    addExtraProtocols hello handlers =
      ({ protocols := hello.protocols ++ handlers.map (fun h => h.cap) }, handlers) := by
  suffices hgen : ∀ (hs : List ProtocolHandler) (acc1 : HelloMessage)
      (acc2 : List ProtocolHandler),
      hs.foldl
        (fun acc h =>
          match acc.1.tryAddProtocol h.cap with
          | .ok hello2 => (hello2, acc.2 ++ [h])
          | .error _ => (acc.1, acc.2))
        (acc1, acc2) =
      ({ protocols := acc1.protocols ++ hs.map (fun h => h.cap) }, acc2 ++ hs) by
    have := hgen handlers hello []
    simpa [addExtraProtocols] using this
  intro hs
  induction hs with
  | nil => intro acc1 acc2; simp
  | cons a t ih =>
    intro acc1 acc2
    rw [List.foldl_cons]
    refine (ih { protocols := acc1.protocols ++ [a.cap] } (acc2 ++ [a])).trans ?_
    simp

/-- Single left-to-right pass equivalent to the `while let Some(pos)` loop of
the mandatory-capability check: keep supported handlers, drop unsupported
optional ones, fail on the first unsupported mandatory one. -/
def extraCapPass (shared : List Capability) :
    List ProtocolHandler → Except PendingSessionHandshakeError (List ProtocolHandler)
  | [] => .ok []
  | h :: rest =>
    if capSupported shared h.cap then
      (extraCapPass shared rest).map (fun l => h :: l)
    else if h.onUnsupportedByPeer = OnNotSupported.disconnect then
      .error .unsupportedExtraCapability
    else extraCapPass shared rest

/-- A fully supported handler list passes unchanged. -/
theorem extraCapPass_all_supported {shared : List Capability}
    {hs : List ProtocolHandler} (hall : ∀ h ∈ hs, capSupported shared h.cap = true) :
    extraCapPass shared hs = .ok hs := by
  induction hs with
  | nil => rfl
  | cons a t ih =>
    have ha := hall a (by simp)
    rw [extraCapPass, if_pos ha, ih (fun h hh => hall h (by simp [hh]))]
    rfl

/-- A supported prefix is retained verbatim by the pass. -/
theorem extraCapPass_append_supported {shared : List Capability}
    {A : List ProtocolHandler} (C : List ProtocolHandler)
    (hall : ∀ h ∈ A, capSupported shared h.cap = true) :
    extraCapPass shared (A ++ C) =
      (extraCapPass shared C).map (fun l => A ++ l) := by
  induction A with
  | nil =>
    cases hc : extraCapPass shared C <;> simp [hc, Except.map]
  | cons a t ih =>
    have ha := hall a (by simp)
    rw [List.cons_append, extraCapPass, if_pos ha,
      ih (fun h hh => hall h (by simp [hh]))]
    cases hc : extraCapPass shared C <;> simp [hc, Except.map]

/-- The positional loop `runExtraCapCheck` computes the same result as the
single pass. -/
theorem runExtraCapCheck_eq_pass (shared : List Capability) :
    ∀ (n : Nat) (handlers : List ProtocolHandler), handlers.length ≤ n →
      runExtraCapCheck shared handlers = extraCapPass shared handlers := by
  intro n
  induction n with
  | zero =>
    intro handlers hlen
    have : handlers = [] := List.eq_nil_of_length_eq_zero (Nat.le_zero.mp hlen)
    subst this
    rw [runExtraCapCheck, dif_neg (by simp)]
    rfl
  | succ n ih =>
    intro handlers hlen
    rw [runExtraCapCheck]
    by_cases hlt :
        handlers.findIdx (fun h => !(capSupported shared h.cap)) < handlers.length
    · rw [dif_pos hlt]
      have hgx : capSupported shared (handlers[handlers.findIdx
          (fun h => !(capSupported shared h.cap))]).cap = false := by
        have := @List.findIdx_getElem _ _ handlers hlt
        simpa using this
      have htake : ∀ x ∈ handlers.take (handlers.findIdx
          (fun h => !(capSupported shared h.cap))),
          capSupported shared x.cap = true := by
        intro x hx
        obtain ⟨i, hi, hgxi⟩ := List.getElem_of_mem hx
        have hi2 : i < handlers.findIdx (fun h => !(capSupported shared h.cap)) := by
          have hcp := hi
          simp only [List.length_take, Nat.lt_min] at hcp
          exact hcp.1
        have hp := List.not_of_lt_findIdx hi2
        rw [List.getElem_take] at hgxi
        rw [← hgxi]
        simpa using hp
      have hsplit : handlers = handlers.take (handlers.findIdx
            (fun h => !(capSupported shared h.cap))) ++
          handlers.get ⟨handlers.findIdx (fun h => !(capSupported shared h.cap)), hlt⟩ ::
          handlers.drop (handlers.findIdx (fun h => !(capSupported shared h.cap)) + 1) := by
        conv_lhs => rw [← List.take_append_drop
          (handlers.findIdx (fun h => !(capSupported shared h.cap))) handlers]
        congr 1
        rw [List.get_eq_getElem]
        exact (List.getElem_cons_drop handlers _ hlt).symm
      have herase : handlers.eraseIdx (handlers.findIdx
            (fun h => !(capSupported shared h.cap))) =
          handlers.take (handlers.findIdx (fun h => !(capSupported shared h.cap))) ++
          handlers.drop (handlers.findIdx (fun h => !(capSupported shared h.cap)) + 1) :=
        List.eraseIdx_eq_take_drop_succ handlers _
      have hlen2 : (handlers.eraseIdx (handlers.findIdx
          (fun h => !(capSupported shared h.cap)))).length ≤ n := by
        rw [List.length_eraseIdx, if_pos hlt]
        omega
      by_cases hdis : (handlers.get ⟨handlers.findIdx
            (fun h => !(capSupported shared h.cap)), hlt⟩).onUnsupportedByPeer =
          OnNotSupported.disconnect
      · rw [if_pos hdis]
        conv_rhs => rw [hsplit]
        rw [extraCapPass_append_supported _ htake]
        rw [extraCapPass, if_neg (by simp [hgx]), if_pos hdis]
        rfl
      · rw [if_neg hdis]
        rw [ih _ hlen2, herase]
        conv_rhs => rw [hsplit]
        rw [extraCapPass_append_supported _ htake,
          extraCapPass_append_supported _ htake]
        rw [extraCapPass, if_neg (by simp [hgx]), if_neg hdis]
    · rw [dif_neg hlt]
      have hall : ∀ x ∈ handlers, capSupported shared x.cap = true := by
        have hle : handlers.findIdx (fun h => !(capSupported shared h.cap)) ≤
            handlers.length := List.findIdx_le_length _
        have heq : handlers.findIdx (fun h => !(capSupported shared h.cap)) =
            handlers.length := by omega
        have := List.findIdx_eq_length.mp heq
        intro x hx
        have hx2 := this x hx
        simpa using hx2
      rw [extraCapPass_all_supported hall]

/-- If some registered handler is unsupported and mandatory, the pass fails
with `UnsupportedExtraCapability`. -/
theorem extraCapPass_error_of_mandatory {shared : List Capability}
    {hs : List ProtocolHandler} {h : ProtocolHandler} (hmem : h ∈ hs)
    (hsup : capSupported shared h.cap = false)
    (hdis : h.onUnsupportedByPeer = OnNotSupported.disconnect) :
    extraCapPass shared hs = .error .unsupportedExtraCapability := by
  induction hs with
  | nil => cases hmem
  | cons a t ih =>
    rcases List.mem_cons.mp hmem with rfl | hmem2
    · rw [extraCapPass, if_neg (by simp [hsup]), if_pos hdis]
    · by_cases hsa : capSupported shared a.cap
      · rw [extraCapPass, if_pos hsa, ih hmem2]
        rfl
      · by_cases hda : a.onUnsupportedByPeer = OnNotSupported.disconnect
        · rw [extraCapPass, if_neg (by simp [hsa]), if_pos hda]
        · rw [extraCapPass, if_neg (by simp [hsa]), if_neg hda]
          exact ih hmem2

/-- If every unsupported handler is optional, the pass succeeds and keeps
exactly the supported handlers. -/
theorem extraCapPass_ok_of_optional {shared : List Capability}
    {hs : List ProtocolHandler}
    (hopt : ∀ h ∈ hs, capSupported shared h.cap = false →
      h.onUnsupportedByPeer = OnNotSupported.keepAlive) :
    extraCapPass shared hs =
      .ok (hs.filter (fun h => capSupported shared h.cap)) := by
  induction hs with
  | nil => rfl
  | cons a t ih =>
    have iht := ih (fun h hh hsup => hopt h (by simp [hh]) hsup)
    by_cases hsa : capSupported shared a.cap
    · rw [extraCapPass, if_pos hsa, iht]
      simp [List.filter_cons, hsa, Except.map]
    · have hka := hopt a (by simp) (by simpa using hsa)
      rw [extraCapPass, if_neg hsa, if_neg (by simp [hka]), iht]
      simp [List.filter_cons, hsa]

/-- A successful direction lookup implies key membership. -/
theorem containsKey_of_lookup {l : List (Nat × PendingSessionHandle)} {sid : Nat}
    {dir : Direction} (h : lookupDirection l sid = some dir) :
    containsKey sid l = true := by
  obtain ⟨entry, hf, _⟩ := lookupDirection_find h
  unfold containsKey
  rw [List.any_eq_true]
  refine ⟨entry, List.mem_of_find?_eq_some hf, ?_⟩
  have hpa := List.find?_some hf
  simpa using hpa

/-- `remove_active_session` never touches the pending-session event queue. -/
theorem removeActiveSession_pendingRx (m : SessionManager) (peer : PeerId) :
    (m.removeActiveSession peer).pendingRx = m.pendingRx := by
  unfold SessionManager.removeActiveSession
  cases hf : m.activeSessions.find? (fun p => p.1 == peer) <;> simp

/-- `remove_active_session` never touches the active-session event queue. -/
theorem removeActiveSession_activeRx (m : SessionManager) (peer : PeerId) :
    (m.removeActiveSession peer).activeRx = m.activeRx := by
  unfold SessionManager.removeActiveSession
  cases hf : m.activeSessions.find? (fun p => p.1 == peer) <;> simp

/-- When the active channel is empty and a pending event is at the head of the
queue for a tracked session id, `poll` returns an event and the new state's
pending table is the old one with that id's handle erased. -/
theorem poll_erases_pending (m : SessionManager) (ev0 : PendingSessionEvent)
    (prest : List PendingSessionEvent)
    (harx : m.activeRx = []) (hprx : m.pendingRx = ev0 :: prest)
    (hlook : lookupDirection m.pendingSessions ev0.sessionId = some ev0.direction) :
    ∃ e m2 sp, m.poll = some (e, m2, sp) ∧
      m2.pendingSessions = m.pendingSessions.eraseP (fun p => p.1 == ev0.sessionId) := by
  cases ev0 with
  | established sid addr peer caps dir =>
    simp only [PendingSessionEvent.sessionId, PendingSessionEvent.direction] at hlook ⊢
    have hrew := removePendingSession_eq
      { m with pendingRx := prest } sid dir hlook
    rw [harx] at hrew
    unfold SessionManager.poll
    rw [harx, hprx]
    simp only
    rw [hrew]
    cases hcont : containsKey peer m.activeSessions with
    | true =>
      simp only [hcont, if_true]
      exact ⟨_, _, _, rfl, rfl⟩
    | false =>
      simp only [hcont, Bool.false_eq_true, if_false]
      exact ⟨_, _, _, rfl, rfl⟩
  | disconnected addr sid dir err =>
    simp only [PendingSessionEvent.sessionId, PendingSessionEvent.direction] at hlook ⊢
    have hrew := removePendingSession_eq
      { m with pendingRx := prest } sid dir hlook
    rw [harx] at hrew
    unfold SessionManager.poll
    rw [harx, hprx]
    simp only
    rw [hrew]
    cases dir with
    | incoming => exact ⟨_, _, _, rfl, rfl⟩
    | outgoing peer => exact ⟨_, _, _, rfl, rfl⟩
  | outgoingConnectionError addr sid peer =>
    simp only [PendingSessionEvent.sessionId, PendingSessionEvent.direction] at hlook ⊢
    have hrew := removePendingSession_eq
      { m with pendingRx := prest } sid (.outgoing peer) hlook
    rw [harx] at hrew
    unfold SessionManager.poll
    rw [harx, hprx]
    simp only
    rw [hrew]
    exact ⟨_, _, _, rfl, rfl⟩
  | eciesAuthError addr sid dir =>
    simp only [PendingSessionEvent.sessionId, PendingSessionEvent.direction] at hlook ⊢
    have hrew := removePendingSession_eq
      { m with pendingRx := prest } sid dir hlook
    rw [harx] at hrew
    unfold SessionManager.poll
    rw [harx, hprx]
    simp only
    rw [hrew]
    cases dir with
    | incoming => exact ⟨_, _, _, rfl, rfl⟩
    | outgoing peer => exact ⟨_, _, _, rfl, rfl⟩

/-! ## Claim theorems -/

/-- C1: Admission invariant — in every reachable world (any sequence of
`on_incoming` accepts, `dial_outbound` dials, pipeline event deliveries and
processed `poll`s), for each direction the number of pending sessions plus the
number of active sessions never exceeds that direction's configured limit; and
the capacity check precedes task spawning: a spawned handshake task implies
the admission check succeeded. -/
theorem C1_admission_invariant :
    (∀ w : World, Reachable w →
      (∀ L, w.mgr.counter.limits.maxInbound = some L →
        pendingCountDir w.mgr true + activeCountDir w.mgr true ≤ L) ∧
      (∀ L, w.mgr.counter.limits.maxOutbound = some L →
        pendingCountDir w.mgr false + activeCountDir w.mgr false ≤ L)) ∧
    (∀ (m : SessionManager) (addr : SocketAddr),
      (m.onIncoming addr).2.2 ≠ [] → m.counter.ensurePendingInbound = .ok ()) ∧
    (∀ (m : SessionManager) (addr : SocketAddr) (peer : PeerId),
      (m.dialOutbound addr peer).2 ≠ [] →
        m.counter.ensurePendingOutbound = .ok ()) := by
  refine ⟨?_, ?_, ?_⟩
  · intro w hr
    have hinv := inv_reachable hr
    constructor
    · intro L hL
      have hle := hinv.limitOk true L (by simpa [limitDir] using hL)
      rw [hinv.pendingEq true, hinv.activeEq true] at hle
      exact hle
    · intro L hL
      have hle := hinv.limitOk false L (by simpa [limitDir] using hL)
      rw [hinv.pendingEq false, hinv.activeEq false] at hle
      exact hle
  · intro m addr hne
    unfold SessionManager.onIncoming at hne
    cases hens : m.counter.ensurePendingInbound with
    | error e => rw [hens] at hne; simp at hne
    | ok u => rfl
  · intro m addr peer hne
    unfold SessionManager.dialOutbound at hne
    cases hens : m.counter.ensurePendingOutbound with
    | error e =>
      rw [if_neg (by simp [hens, Except.isOk, Except.toBool])] at hne
      simp at hne
    | ok u => rfl

/-- Witness for C1: hypotheses discharged at a fresh world with limits 2/3 and
at a fresh manager whose admission checks succeed and spawn tasks. -/
theorem C1_admission_invariant_witness :
    (pendingCountDir (World.init ⟨some 2, some 3⟩ 8).mgr true +
      activeCountDir (World.init ⟨some 2, some 3⟩ 8).mgr true ≤ 2) ∧
    (SessionManager.new ⟨some 2, some 3⟩ 8).counter.ensurePendingInbound = .ok () ∧
    (SessionManager.new ⟨some 2, some 3⟩ 8).counter.ensurePendingOutbound = .ok () :=
  ⟨(C1_admission_invariant.1 (World.init ⟨some 2, some 3⟩ 8)
      (Reachable.init ⟨some 2, some 3⟩ 8)).1 2 rfl,
   C1_admission_invariant.2.1 (SessionManager.new ⟨some 2, some 3⟩ 8) 0 (by decide),
   C1_admission_invariant.2.2 (SessionManager.new ⟨some 2, some 3⟩ 8) 0 7 (by decide)⟩

/-- C5: Admission-denial behaviour — when the inbound check fails,
`on_incoming` returns the `ExceedsSessionLimit` error with the manager state
completely unchanged (no task, no counter change, no handle, no session id
consumed); when the outbound check fails, `dial_outbound` does nothing at all
and surfaces no error. -/
theorem C5_admission_denial_asymmetry :
    (∀ (m : SessionManager) (addr : SocketAddr) (err : ExceedsSessionLimit),
      m.counter.ensurePendingInbound = .error err →
      m.onIncoming addr = (.error err, m, [])) ∧
    (∀ (m : SessionManager) (addr : SocketAddr) (peer : PeerId),
      (m.counter.ensurePendingOutbound).isOk = false →
      m.dialOutbound addr peer = (m, [])) := by
  constructor
  · intro m addr err hens
    unfold SessionManager.onIncoming
    rw [hens]
  · intro m addr peer hens
    unfold SessionManager.dialOutbound
    rw [if_neg (by simp [hens])]

/-- Witness for C5 at a manager whose limits are exhausted (limit 0). -/
theorem C5_admission_denial_asymmetry_witness :
    (SessionManager.new ⟨some 0, some 0⟩ 4).onIncoming 9 =
      (.error ⟨0⟩, SessionManager.new ⟨some 0, some 0⟩ 4, []) ∧
    (SessionManager.new ⟨some 0, some 0⟩ 4).dialOutbound 9 5 =
      (SessionManager.new ⟨some 0, some 0⟩ 4, []) :=
  ⟨C5_admission_denial_asymmetry.1 (SessionManager.new ⟨some 0, some 0⟩ 4) 9 ⟨0⟩
     rfl,
   C5_admission_denial_asymmetry.2 (SessionManager.new ⟨some 0, some 0⟩ 4) 9 5
     (by decide)⟩

/-- C10: `send_message` for a peer with no active session is a complete
no-op: the manager state (tables, counters, metrics) is returned unchanged and
no command is delivered to any session. -/
theorem C10_send_message_absent_noop :
    ∀ (m : SessionManager) (peer : PeerId) (payload : Nat),
      containsKey peer m.activeSessions = false →
      m.sendMessage peer payload = (m, none) := by
  intro m peer payload hcont
  unfold SessionManager.sendMessage
  rw [find?_eq_none_of_containsKey_false hcont]

/-- Witness for C10 at a fresh manager and an unknown peer. -/
theorem C10_send_message_absent_noop_witness :
    (SessionManager.new ⟨some 5, some 5⟩ 4).sendMessage 3 42 =
      (SessionManager.new ⟨some 5, some 5⟩ 4, none) :=
  C10_send_message_absent_noop (SessionManager.new ⟨some 5, some 5⟩ 4) 3 42 (by decide)

/-- C8: Disconnection limiter — in every reachable limiter state the number of
in-flight graceful-disconnect tasks is at most 15 and the `Arc` strong count
is that number plus the manager's own handle; the capacity check is a pure
comparison (non-blocking); on failure `try_disconnect_incoming_connection`
returns without spawning (dropping the connection); on success a permit is
taken by cloning the shared handle (strong count +1), and `DiscStep.finish`
releases it when the task ends. -/
theorem C8_disconnection_limiter :
    (∀ s : DiscState, DiscReachable s →
      s.outstanding ≤ maxConcurrentGracefulDisconnections ∧
      s.strongCount = s.outstanding + 1) ∧
    (∀ c : Nat, hasCapacity c = false →
      tryDisconnectIncomingConnection c = (c, false)) ∧
    (∀ c : Nat, hasCapacity c = true →
      tryDisconnectIncomingConnection c = (c + 1, true)) ∧
    maxConcurrentGracefulDisconnections = 15 := by
  refine ⟨?_, ?_, ?_, rfl⟩
  · intro s hs
    have h := discReachable_inv hs
    exact ⟨h.2, h.1⟩
  · intro c hc
    unfold tryDisconnectIncomingConnection
    rw [if_pos (by simp [hc])]
  · intro c hc
    unfold tryDisconnectIncomingConnection
    rw [if_neg (by simp [hc])]

/-- Witness for C8: the initial limiter state, a full counter (16) and a free
counter (1). -/
theorem C8_disconnection_limiter_witness :
    ((⟨1, 0⟩ : DiscState).outstanding ≤ maxConcurrentGracefulDisconnections ∧
      (⟨1, 0⟩ : DiscState).strongCount = (⟨1, 0⟩ : DiscState).outstanding + 1) ∧
    tryDisconnectIncomingConnection 16 = (16, false) ∧
    tryDisconnectIncomingConnection 1 = (2, true) :=
  ⟨C8_disconnection_limiter.1 ⟨1, 0⟩ DiscReachable.init,
   C8_disconnection_limiter.2.1 16 (by decide),
   C8_disconnection_limiter.2.2.1 1 (by decide)⟩

/-- C9: Before the hello message is sent, every caller-registered extra
sub-protocol handler's capability is added to the locally advertised
capability list (and the original advertised capabilities are kept). -/
theorem C9_hello_advertises_extra_protocols :
    ∀ (hello : HelloMessage) (handlers : List ProtocolHandler)
      (h : ProtocolHandler), h ∈ handlers →
      h.cap ∈ (addExtraProtocols hello handlers).1.protocols ∧
      ∀ c ∈ hello.protocols, c ∈ (addExtraProtocols hello handlers).1.protocols := by
  intro hello handlers h hmem
  rw [addExtraProtocols_eq]
  constructor
  · simp only [List.mem_append]
    exact Or.inr (List.mem_map.mpr ⟨h, hmem, rfl⟩)
  · intro c hc
    simp only [List.mem_append]
    exact Or.inl hc

/-- Witness for C9 with one registered handler. -/
theorem C9_hello_advertises_extra_protocols_witness :
    (⟨"snap", 1⟩ : Capability) ∈
      (addExtraProtocols ⟨[⟨"eth", 68⟩]⟩
        [⟨⟨"snap", 1⟩, OnNotSupported.keepAlive⟩]).1.protocols ∧
    ∀ c ∈ ([⟨"eth", 68⟩] : List Capability),
      c ∈ (addExtraProtocols ⟨[⟨"eth", 68⟩]⟩
        [⟨⟨"snap", 1⟩, OnNotSupported.keepAlive⟩]).1.protocols :=
  C9_hello_advertises_extra_protocols ⟨[⟨"eth", 68⟩]⟩
    [⟨⟨"snap", 1⟩, OnNotSupported.keepAlive⟩]
    ⟨⟨"snap", 1⟩, OnNotSupported.keepAlive⟩ (by decide)

/-- C2: At most one active session per peer — in every reachable world the
active table has no duplicate peer keys; and when `poll` processes an
`Established` event for a peer that already has an active session, it emits
`AlreadyConnected` for the new attempt, spawns the `AlreadyConnected`
disconnect of the new connection, and leaves the active table and the active
counters unchanged. -/
theorem C2_at_most_one_active_per_peer :
    (∀ w : World, Reachable w → (w.mgr.activeSessions.map Prod.fst).Nodup) ∧
    (∀ (m : SessionManager) (sid : Nat) (addr : SocketAddr) (peer : PeerId)
        (caps : List Capability) (dir : Direction) (prest : List PendingSessionEvent),
      m.activeRx = [] →
      m.pendingRx = .established sid addr peer caps dir :: prest →
      containsKey peer m.activeSessions = true →
      ∃ m2, m.poll = some (.alreadyConnected peer addr dir, m2,
          [.disconnectConn .alreadyConnected]) ∧
        m2.activeSessions = m.activeSessions ∧
        m2.counter.activeInbound = m.counter.activeInbound ∧
        m2.counter.activeOutbound = m.counter.activeOutbound) := by
  constructor
  · intro w hr
    exact (inv_reachable hr).activeNodup
  · intro m sid addr peer caps dir prest harx hprx hcont
    refine ⟨({ m with
               pendingRx := prest,
               activeRx := [] } : SessionManager).removePendingSession sid,
      ?_, ?_, ?_, ?_⟩
    · unfold SessionManager.poll
      rw [harx, hprx]
      simp only
      have hrw := removePendingSession_activeSessions
        ({ m with pendingRx := prest, activeRx := [] } : SessionManager) sid
      simp only [hrw, hcont, if_true]
    · rw [removePendingSession_activeSessions]
    · have hca := removePendingSession_counterActive
        ({ m with pendingRx := prest, activeRx := [] } : SessionManager) sid true
      simpa [counterActiveDir] using hca
    · have hca := removePendingSession_counterActive
        ({ m with pendingRx := prest, activeRx := [] } : SessionManager) sid false
      simpa [counterActiveDir] using hca

/-- A manager with one active session for peer 5 and a freshly completed
duplicate handshake for the same peer at the head of the pending queue. -/
def c2Manager : SessionManager :=
  { nextIdCtr := 2, counter := ⟨⟨some 2, some 2⟩, 1, 0, 1, 0⟩,
    sessionCommandBuffer := 4,
    pendingSessions := [(1, ⟨true, Direction.incoming⟩)],
    activeSessions := [(5, ⟨Direction.incoming, 0, 5, [], 7, 0, false⟩)],
    pendingRx := [.established 1 8 5 [] .incoming],
    activeRx := [], disconnectionsCounter := 1, droppedMessages := 0,
    dialSuccesses := 0 }

/-- Witness for C2 at `c2Manager`. -/
theorem C2_at_most_one_active_per_peer_witness :
    ∃ m2, c2Manager.poll = some (.alreadyConnected 5 8 .incoming, m2,
        [.disconnectConn .alreadyConnected]) ∧
      m2.activeSessions = c2Manager.activeSessions ∧
      m2.counter.activeInbound = c2Manager.counter.activeInbound ∧
      m2.counter.activeOutbound = c2Manager.counter.activeOutbound :=
  C2_at_most_one_active_per_peer.2 c2Manager 1 8 5 [] .incoming [] rfl rfl (by decide)

/-- C3: Exactly one terminal event per spawned pipeline — every outcome of the
incoming and of the outgoing handshake pipeline sends exactly one terminal
`PendingSessionEvent` (never zero, never two); and in any reachable world,
a queued terminal event's session id has a pending handle, and the `poll` that
observes the queue head removes that handle (it is gone afterwards). -/
theorem C3_exactly_one_terminal_event :
    (∀ (sid : Nat) (addr : SocketAddr) (hello : HelloMessage)
        (extra : List ProtocolHandler) (o : PipelineOutcome AuthenticateOutcome),
      (incomingPipelineEvents sid addr hello extra o).length = 1) ∧
    (∀ (sid : Nat) (addr : SocketAddr) (peer : PeerId) (hello : HelloMessage)
        (extra : List ProtocolHandler) (o : PipelineOutcome OutboundOutcome),
      (outgoingPipelineEvents sid addr peer hello extra o).length = 1) ∧
    (∀ w : World, Reachable w → ∀ (ev0 : PendingSessionEvent)
        (prest : List PendingSessionEvent),
      w.mgr.activeRx = [] → w.mgr.pendingRx = ev0 :: prest →
      containsKey ev0.sessionId w.mgr.pendingSessions = true ∧
      ∃ e m2 sp, w.mgr.poll = some (e, m2, sp) ∧
        containsKey ev0.sessionId m2.pendingSessions = false) := by
  refine ⟨?_, ?_, ?_⟩
  · intro sid addr hello extra o
    cases o with
    | timedOut => rfl
    | completed ao => cases ao <;> rfl
  · intro sid addr peer hello extra o
    cases o with
    | timedOut => rfl
    | completed oo =>
      cases oo with
      | connectFail => rfl
      | connected ao => cases ao <;> rfl
  · intro w hr ev0 prest harx hprx
    have hinv := inv_reachable hr
    have hmem : ev0 ∈ w.mgr.pendingRx := by rw [hprx]; simp
    have hlook := hinv.trackedQueue ev0 hmem
    refine ⟨containsKey_of_lookup hlook, ?_⟩
    obtain ⟨e, m2, sp, hpoll, hps⟩ :=
      poll_erases_pending w.mgr ev0 prest harx hprx hlook
    refine ⟨e, m2, sp, hpoll, ?_⟩
    rw [hps]
    exact containsKey_eraseP_self hinv.pendingKeyNodup

/-- A reachable world: one accepted incoming connection whose pipeline has
delivered its terminal event (external cancellation) into the pending queue. -/
def c3World : World :=
  ⟨{ nextIdCtr := 1, counter := ⟨⟨some 2, some 2⟩, 1, 0, 0, 0⟩,
     sessionCommandBuffer := 4,
     pendingSessions := [(0, ⟨true, Direction.incoming⟩)],
     activeSessions := [],
     pendingRx := [.disconnected 0 0 .incoming none],
     activeRx := [], disconnectionsCounter := 1, droppedMessages := 0,
     dialSuccesses := 0 }, []⟩

/-- `c3World` is reachable: init, accept, deliver. -/
theorem c3World_reachable : Reachable c3World :=
  Reachable.step _ _
    (Reachable.step _ _ (Reachable.init ⟨some 2, some 2⟩ 4) (Step.accept _ 0))
    (Step.deliver _ [] [] ⟨0, .incoming, 0⟩ (.disconnected 0 0 .incoming none)
      rfl rfl rfl)

/-- Witness for C3 at `c3World`. -/
theorem C3_exactly_one_terminal_event_witness :
    containsKey 0 c3World.mgr.pendingSessions = true ∧
    ∃ e m2 sp, c3World.mgr.poll = some (e, m2, sp) ∧
      containsKey 0 m2.pendingSessions = false :=
  C3_exactly_one_terminal_event.2.2 c3World c3World_reachable
    (.disconnected 0 0 .incoming none) [] rfl rfl

/-- C4: Poll priority — whenever both an active-session message and a
pending-session event are ready, `poll` returns the event derived from the
active-session channel, consumes only the active channel, and leaves the
pending channel untouched. -/
theorem C4_poll_priority :
    ∀ (m : SessionManager) (msg : ActiveSessionMessage)
      (arest : List ActiveSessionMessage) (pev : PendingSessionEvent)
      (prest : List PendingSessionEvent),
      m.activeRx = msg :: arest → m.pendingRx = pev :: prest →
      ∃ e m2 sp, m.poll = some (e, m2, sp) ∧ e.fromActiveChannel = true ∧
        m2.pendingRx = m.pendingRx ∧ m2.activeRx = arest := by
  intro m msg arest pev prest harx hprx
  cases msg with
  | disconnected peer addr =>
    refine ⟨.disconnected peer addr,
      ({ m with activeRx := arest } : SessionManager).removeActiveSession peer, [],
      ?_, rfl, ?_, ?_⟩
    · unfold SessionManager.poll
      rw [harx]
    · rw [removeActiveSession_pendingRx]
    · rw [removeActiveSession_activeRx]
  | closedOnConnectionError peer addr err =>
    refine ⟨.sessionClosedOnConnectionError peer addr err,
      ({ m with activeRx := arest } : SessionManager).removeActiveSession peer, [],
      ?_, rfl, ?_, ?_⟩
    · unfold SessionManager.poll
      rw [harx]
    · rw [removeActiveSession_pendingRx]
    · rw [removeActiveSession_activeRx]
  | validMessage peer payload =>
    refine ⟨.validMessage peer payload,
      ({ m with activeRx := arest } : SessionManager), [], ?_, rfl, rfl, rfl⟩
    unfold SessionManager.poll
    rw [harx]
  | badMessage peer =>
    refine ⟨.badMessage peer,
      ({ m with activeRx := arest } : SessionManager), [], ?_, rfl, rfl, rfl⟩
    unfold SessionManager.poll
    rw [harx]
  | protocolBreach peer =>
    refine ⟨.protocolBreach peer,
      ({ m with activeRx := arest } : SessionManager), [], ?_, rfl, rfl, rfl⟩
    unfold SessionManager.poll
    rw [harx]

/-- A manager with both channels ready. -/
def c4Manager : SessionManager :=
  { nextIdCtr := 2, counter := ⟨⟨some 2, some 2⟩, 1, 0, 1, 0⟩,
    sessionCommandBuffer := 4,
    pendingSessions := [(1, ⟨true, Direction.incoming⟩)],
    activeSessions := [(5, ⟨Direction.incoming, 0, 5, [], 7, 0, false⟩)],
    pendingRx := [.established 1 8 6 [] .incoming],
    activeRx := [.validMessage 5 99], disconnectionsCounter := 1,
    droppedMessages := 0, dialSuccesses := 0 }

/-- Witness for C4 at `c4Manager`. -/
theorem C4_poll_priority_witness :
    ∃ e m2 sp, c4Manager.poll = some (e, m2, sp) ∧ e.fromActiveChannel = true ∧
      m2.pendingRx = c4Manager.pendingRx ∧ m2.activeRx = [] :=
  C4_poll_priority c4Manager (.validMessage 5 99) [] (.established 1 8 6 [] .incoming)
    [] rfl rfl

/-- C6: Mandatory-capability check — after a successful p2p hello exchange, if
some caller-registered extra handler's capability is missing from the shared
capabilities and its policy is `Disconnect`, the pipeline terminates with
`Disconnected{UnsupportedExtraCapability}`; if every such handler's policy is
`KeepAlive`, those handlers are removed and the handshake can still reach
`Established`, with each removed handler's capability absent from the
negotiated (shared) set. -/
theorem C6_mandatory_capability_check :
    ∀ (env : HandshakeEnv) (sid : Nat) (addr : SocketAddr) (dir : Direction)
      (hello : HelloMessage) (handlers : List ProtocolHandler)
      (p2p : P2PHandshakeSuccess),
      env.p2pResult = .ok p2p →
      ((∃ h ∈ handlers, capSupported p2p.sharedCaps h.cap = false ∧
          h.onUnsupportedByPeer = OnNotSupported.disconnect) →
        authenticateStream env sid addr dir hello handlers =
          .disconnected addr sid dir (some .unsupportedExtraCapability)) ∧
      ((∀ h ∈ handlers, capSupported p2p.sharedCaps h.cap = false →
          h.onUnsupportedByPeer = OnNotSupported.keepAlive) →
        ∀ v : Nat, env.ethVersionResult = .ok v → env.statusResult = .ok () →
          env.satelliteResult = .ok () →
          authenticateStream env sid addr dir hello handlers =
            .established sid addr p2p.theirHello.id p2p.theirHello.capabilities dir ∧
          ∀ h ∈ handlers, capSupported p2p.sharedCaps h.cap = false →
            h.cap ∉ p2p.sharedCaps) := by
  intro env sid addr dir hello handlers p2p hp2p
  constructor
  · intro hbad
    obtain ⟨h0, hmem, hsup, hdis⟩ := hbad
    have hne : handlers ≠ [] := by
      intro hcon
      rw [hcon] at hmem
      cases hmem
    unfold authenticateStream
    rw [addExtraProtocols_eq]
    simp only
    rw [hp2p]
    simp only
    rw [if_neg (by simpa [List.isEmpty_iff] using hne)]
    rw [runExtraCapCheck_eq_pass p2p.sharedCaps handlers.length handlers (Nat.le_refl _)]
    rw [extraCapPass_error_of_mandatory hmem hsup hdis]
  · intro hopt v hv hst hsat
    constructor
    · unfold authenticateStream
      rw [addExtraProtocols_eq]
      simp only
      rw [hp2p]
      simp only
      have hok : (if handlers.isEmpty then
          (Except.ok handlers :
            Except PendingSessionHandshakeError (List ProtocolHandler))
          else runExtraCapCheck p2p.sharedCaps handlers) =
          .ok (if handlers.isEmpty then handlers
            else handlers.filter (fun h => capSupported p2p.sharedCaps h.cap)) := by
        by_cases hemp : handlers.isEmpty
        · rw [if_pos hemp, if_pos hemp]
        · rw [if_neg hemp, if_neg hemp,
            runExtraCapCheck_eq_pass p2p.sharedCaps handlers.length handlers
              (Nat.le_refl _),
            extraCapPass_ok_of_optional hopt]
      rw [hok]
      simp only
      rw [hv]
      simp only
      by_cases hlen : p2p.sharedCaps.length == 1
      · rw [if_pos hlen, hst]
      · rw [if_neg hlen, hsat]
    · intro h hmem hsup
      simpa [capSupported] using hsup

/-- Witness for C6: a mandatory unsupported handler forces the disconnect,
and an optional unsupported handler still reaches `Established`. -/
theorem C6_mandatory_capability_check_witness :
    (authenticateStream ⟨.ok ⟨[⟨"eth", 68⟩], ⟨5, [⟨"eth", 68⟩]⟩⟩, .ok 68, .ok (),
        .ok ()⟩ 0 7 .incoming ⟨[⟨"eth", 68⟩]⟩
        [⟨⟨"must", 1⟩, OnNotSupported.disconnect⟩] =
      .disconnected 7 0 .incoming (some .unsupportedExtraCapability)) ∧
    (authenticateStream ⟨.ok ⟨[⟨"eth", 68⟩], ⟨5, [⟨"eth", 68⟩]⟩⟩, .ok 68, .ok (),
        .ok ()⟩ 0 7 .incoming ⟨[⟨"eth", 68⟩]⟩
        [⟨⟨"opt", 1⟩, OnNotSupported.keepAlive⟩] =
      .established 0 7 5 [⟨"eth", 68⟩] .incoming) :=
  ⟨(C6_mandatory_capability_check
      ⟨.ok ⟨[⟨"eth", 68⟩], ⟨5, [⟨"eth", 68⟩]⟩⟩, .ok 68, .ok (), .ok ()⟩ 0 7 .incoming
      ⟨[⟨"eth", 68⟩]⟩ [⟨⟨"must", 1⟩, OnNotSupported.disconnect⟩]
      ⟨[⟨"eth", 68⟩], ⟨5, [⟨"eth", 68⟩]⟩⟩ rfl).1
     ⟨⟨⟨"must", 1⟩, OnNotSupported.disconnect⟩, by decide, by decide, rfl⟩,
   ((C6_mandatory_capability_check
      ⟨.ok ⟨[⟨"eth", 68⟩], ⟨5, [⟨"eth", 68⟩]⟩⟩, .ok 68, .ok (), .ok ()⟩ 0 7 .incoming
      ⟨[⟨"eth", 68⟩]⟩ [⟨⟨"opt", 1⟩, OnNotSupported.keepAlive⟩]
      ⟨[⟨"eth", 68⟩], ⟨5, [⟨"eth", 68⟩]⟩⟩ rfl).2
     (by intro h hh hs; rw [List.mem_singleton] at hh; subst hh; rfl) 68 rfl rfl rfl).1⟩

/-- C7: Timeout boundary — a pipeline cut off by the timeout yields exactly
the `Disconnected{Timeout}` event; a pipeline that completed in time is
unaffected (its events are exactly the inner future's); and `poll` surfaces a
queued timeout event as `IncomingPendingSessionClosed` /
`OutgoingPendingSessionClosed` carrying the `Timeout` error, with the pending
counter for the direction decremented. -/
theorem C7_timeout_boundary :
    (∀ (sid : Nat) (addr : SocketAddr) (hello : HelloMessage)
        (extra : List ProtocolHandler),
      incomingPipelineEvents sid addr hello extra .timedOut =
        [.disconnected addr sid .incoming (some .timeout)]) ∧
    (∀ (sid : Nat) (addr : SocketAddr) (peer : PeerId) (hello : HelloMessage)
        (extra : List ProtocolHandler),
      outgoingPipelineEvents sid addr peer hello extra .timedOut =
        [.disconnected addr sid (.outgoing peer) (some .timeout)]) ∧
    (∀ (sid : Nat) (addr : SocketAddr) (hello : HelloMessage)
        (extra : List ProtocolHandler) (o : AuthenticateOutcome),
      incomingPipelineEvents sid addr hello extra (.completed o) =
        authenticateEvents o sid addr .incoming hello extra) ∧
    (∀ (sid : Nat) (addr : SocketAddr) (peer : PeerId) (hello : HelloMessage)
        (extra : List ProtocolHandler) (o : OutboundOutcome),
      outgoingPipelineEvents sid addr peer hello extra (.completed o) =
        startPendingOutboundEvents o sid addr peer hello extra) ∧
    (∀ (m : SessionManager) (addr : SocketAddr) (sid : Nat)
        (prest : List PendingSessionEvent),
      m.activeRx = [] →
      m.pendingRx = .disconnected addr sid .incoming (some .timeout) :: prest →
      lookupDirection m.pendingSessions sid = some .incoming →
      ∃ m2, m.poll =
          some (.incomingPendingSessionClosed addr (some .timeout), m2, []) ∧
        m2.counter.pendingInbound = m.counter.pendingInbound - 1) ∧
    (∀ (m : SessionManager) (addr : SocketAddr) (sid : Nat) (peer : PeerId)
        (prest : List PendingSessionEvent),
      m.activeRx = [] →
      m.pendingRx = .disconnected addr sid (.outgoing peer) (some .timeout) :: prest →
      lookupDirection m.pendingSessions sid = some (.outgoing peer) →
      ∃ m2, m.poll =
          some (.outgoingPendingSessionClosed addr peer (some .timeout), m2, []) ∧
        m2.counter.pendingOutbound = m.counter.pendingOutbound - 1) := by
  refine ⟨fun _ _ _ _ => rfl, fun _ _ _ _ _ => rfl, fun _ _ _ _ _ => rfl,
    fun _ _ _ _ _ _ => rfl, ?_, ?_⟩
  · intro m addr sid prest harx hprx hlook
    have hrew := removePendingSession_eq
      { m with pendingRx := prest } sid .incoming hlook
    rw [harx] at hrew
    refine ⟨{ m with
              pendingRx := prest,
              pendingSessions := m.pendingSessions.eraseP (fun p => p.1 == sid),
              counter := m.counter.decPending .incoming,
              activeRx := [] }, ?_, ?_⟩
    · unfold SessionManager.poll
      rw [harx, hprx]
      simp only
      rw [hrew]
    · simp [SessionCounter.decPending]
  · intro m addr sid peer prest harx hprx hlook
    have hrew := removePendingSession_eq
      { m with pendingRx := prest } sid (.outgoing peer) hlook
    rw [harx] at hrew
    refine ⟨{ m with
              pendingRx := prest,
              pendingSessions := m.pendingSessions.eraseP (fun p => p.1 == sid),
              counter := m.counter.decPending (.outgoing peer),
              activeRx := [] }, ?_, ?_⟩
    · unfold SessionManager.poll
      rw [harx, hprx]
      simp only
      rw [hrew]
    · simp [SessionCounter.decPending]

/-- A manager with a timed-out incoming pending session at the queue head. -/
def c7Manager : SessionManager :=
  { nextIdCtr := 1, counter := ⟨⟨some 2, some 2⟩, 1, 0, 0, 0⟩,
    sessionCommandBuffer := 4,
    pendingSessions := [(0, ⟨true, Direction.incoming⟩)],
    activeSessions := [],
    pendingRx := [.disconnected 7 0 .incoming (some .timeout)],
    activeRx := [], disconnectionsCounter := 1, droppedMessages := 0,
    dialSuccesses := 0 }

/-- Witness for C7 at `c7Manager` (hypothesis conjuncts discharged by `rfl`). -/
theorem C7_timeout_boundary_witness :
    incomingPipelineEvents 0 7 ⟨[]⟩ [] .timedOut =
      [.disconnected 7 0 .incoming (some .timeout)] ∧
    ∃ m2, c7Manager.poll =
        some (.incomingPendingSessionClosed 7 (some .timeout), m2, []) ∧
      m2.counter.pendingInbound = c7Manager.counter.pendingInbound - 1 :=
  ⟨C7_timeout_boundary.1 0 7 ⟨[]⟩ [],
   C7_timeout_boundary.2.2.2.2.1 c7Manager 7 0 [] rfl rfl rfl⟩

end RethSession
